import Mathlib

/-!
# The status line of `statusline.go`

A shallow embedding of `src/statusline.go` and the properties of it that the
specification states: the session accounting (`updateSession`,
`calculateTotalHours`), the context estimate (`calculateContextUsage`,
`analyzeContext`), the cache of the git branch (`getGitBranch`) and the
collection of the results and the heartbeat in `main`.

Go's `int64` is embedded as `Int` together with the two's-complement
reduction `wrap64`; every `+` and `-` of the source on `int64` values is
`add64` or `sub64`, and `int` is taken to be 64 bits wide.  Go's `float64` is
embedded as `F64`: the rationals that rounding to nearest (ties to even, 53
bits) leaves fixed, the infinities and not-a-number, every operation rounding
its exact result.  The file system is embedded by what reading and decoding a
session file yields (`FileData`), by the listing of the sessions directory
(`Store`), by the elements of the cleaned path of the session file and by what
`os.MkdirAll` and `os.WriteFile` do; the transcript by what the scanning loop
sees of each line (`Line`), the clock by the readings an invocation takes of
it, and the external lookups by what they yield (`GitEnv`).  A call that does
not return (a panic, an allocation that fails) gives `none`.
-/

namespace Statusline

/-! ## Machine integers -/

/-- Two's-complement reduction of an integer to the range of Go's `int64`. -/
def wrap64 (x : Int) : Int :=
  (x + 9223372036854775808) % 18446744073709551616 - 9223372036854775808

/-- Go's `a - b` on `int64`. -/
def sub64 (a b : Int) : Int := wrap64 (a - b)

/-- Go's `a + b` on `int64`. -/
def add64 (a b : Int) : Int := wrap64 (a + b)

/-- The values of Go's `int64`. -/
def isInt64 (x : Int) : Prop :=
  -9223372036854775808 ≤ x ∧ x < 9223372036854775808

instance (x : Int) : Decidable (isInt64 x) := by
  unfold isInt64; exact inferInstance

/-! ## Data model (`type Interval`, `type Session`) and session files -/

/-- Go: `type Interval struct { Start int64; End *int64 }`; a nil `End` is `none`. -/
structure Interval where
  Start : Int
  End : Option Int
  deriving DecidableEq, Repr

/-- Go: `type Session struct`. -/
structure Session where
  ID : String
  Date : String
  Start : Int
  LastHeartbeat : Int
  TotalSeconds : Int
  Intervals : List Interval
  deriving DecidableEq, Repr

/-- What `os.ReadFile` followed by `json.Unmarshal(data, &session)` yields for
one session file: the read fails (the file is absent or unreadable), the read
succeeds and the decoder reports an error, leaving `residue` in the
destination struct (the zero value after a syntax error), or the read and the
decoding both succeed. -/
inductive FileData where
  | unreadable : FileData
  | malformed (residue : Session) : FileData
  | valid (session : Session) : FileData
  deriving DecidableEq, Repr

/-- The zero value of Go's `Session` (`var session Session`). -/
def zeroSession : Session :=
  { ID := "", Date := "", Start := 0, LastHeartbeat := 0, TotalSeconds := 0, Intervals := [] }

/-! ## `updateSession` -/

/-- Go: `session.Intervals[len(session.Intervals)-1].End = &currentTime`
(the caller has checked `len(session.Intervals) > 0`; on the empty list nothing
is written). -/
def setLastEnd : List Interval → Int → List Interval
  | [], _ => []
  | [iv], t => [{ iv with End := some t }]
  | iv :: jv :: rest, t => iv :: setLastEnd (jv :: rest) t

/-- The body of the loop `for _, interval := range session.Intervals`
of `updateSession`: `if interval.End != nil { total += *interval.End - interval.Start }`. -/
def addInterval (total : Int) (interval : Interval) : Int :=
  match interval.End with
  | some e => add64 total (sub64 e interval.Start)
  | none => total

/-- The loop of `updateSession` that recomputes the total, started at `var total int64`. -/
def sumIntervals (intervals : List Interval) : Int :=
  intervals.foldl addInterval 0

/-- The session that `updateSession` starts from: the decoded file when the
read succeeds (the decoder's error is ignored), a new session otherwise. -/
def loadSession (sessionID today : String) (currentTime : Int) : FileData → Session
  | .valid session => session
  | .malformed residue => residue
  | .unreadable =>
    { ID := sessionID, Date := today, Start := currentTime, LastHeartbeat := currentTime,
      TotalSeconds := 0, Intervals := [{ Start := currentTime, End := none }] }

/-- Go: `updateSession`, as the record it marshals and writes to the session
file, given the result of reading that file, `today = time.Now().Format(..)`
and `currentTime = time.Now().Unix()`. -/
def updateSession (sessionID today : String) (currentTime : Int) (file : FileData) : Session :=
  let session := loadSession sessionID today currentTime file
  let gap := sub64 currentTime session.LastHeartbeat
  let session := { session with LastHeartbeat := currentTime }
  let session :=
    if gap < 600 then
      if session.Intervals.length > 0 then
        { session with Intervals := setLastEnd session.Intervals currentTime }
      else session
    else
      { session with
        Intervals := session.Intervals ++ [{ Start := currentTime, End := some currentTime }] }
  { session with TotalSeconds := sumIntervals session.Intervals }

/-! ## Successive invocations -/

/-- One invocation's clock readings: `time.Now().Format("2006-01-02")` and
`time.Now().Unix()`. -/
structure Tick where
  today : String
  unix : Int
  deriving DecidableEq, Repr

/-- Successive calls of `updateSession` for one session id, each reading the
record the previous one wrote. -/
def updateSessions (sessionID : String) (session : Session) (ticks : List Tick) : Session :=
  ticks.foldl (fun s tk => updateSession sessionID tk.today tk.unix (.valid s)) session

/-- Calls of `updateSession` for one session id at `tick :: ticks`, the first
one finding no session file. -/
def fromAbsent (sessionID : String) (tick : Tick) (ticks : List Tick) : Session :=
  updateSessions sessionID (updateSession sessionID tick.today tick.unix .unreadable) ticks

/-! ## `calculateTotalHours` -/

/-- Go: `strings.HasSuffix(s, suffix)`. -/
def hasSuffix (s suffix : String) : Bool :=
  suffix.data.isSuffixOf s.data

/-- One iteration of the loop `for _, entry := range entries` of
`calculateTotalHours`, on the pair `(totalSeconds, activeSessions)`; an entry is
its name and what reading and decoding it yields. -/
def scanEntry (today : String) (currentTime : Int) (acc : Int × Nat)
    (entry : String × FileData) : Int × Nat :=
  if !hasSuffix entry.1 ".json" then acc
  else
    match entry.2 with
    | .unreadable => acc
    | .malformed _ => acc
    | .valid session =>
      if session.Date = today then
        let totalSeconds := add64 acc.1 session.TotalSeconds
        if sub64 currentTime session.LastHeartbeat < 600 then (totalSeconds, acc.2 + 1)
        else (totalSeconds, acc.2)
      else acc

/-- The accumulation loop of `calculateTotalHours` over the directory entries:
`(totalSeconds, activeSessions)`. -/
def aggregateToday (today : String) (currentTime : Int)
    (entries : List (String × FileData)) : Int × Nat :=
  entries.foldl (scanEntry today currentTime) (0, 0)

/-- Go: `calculateTotalHours`; `entries` is `none` when the home directory or
the sessions directory cannot be read. -/
def calculateTotalHours (today : String) (currentTime : Int)
    (entries : Option (List (String × FileData))) : String :=
  match entries with
  | none => "0m"
  | some entries =>
    let (totalSeconds, activeSessions) := aggregateToday today currentTime entries
    let hours := Int.tdiv totalSeconds 3600
    let minutes := Int.tdiv (Int.tmod totalSeconds 3600) 60
    let timeStr :=
      if hours > 0 then
        if minutes > 0 then toString hours ++ "h" ++ toString minutes ++ "m"
        else toString hours ++ "h"
      else toString minutes ++ "m"
    if activeSessions > 1 then timeStr ++ " [" ++ toString activeSessions ++ " sessions]"
    else timeStr

/-! ## `float64` -/

/-- Round to the nearest integer, ties to the even one. -/
def roundHalfEven (x : ℚ) : Int :=
  let f := ⌊x⌋
  if x - f < 1 / 2 then f
  else if 1 / 2 < x - f then f + 1
  else if f % 2 = 0 then f else f + 1

/-- The magnitude of the `float64` nearest to `a > 0` (ties to even), before the
test for overflow: 53 significant bits, exponent of the last bit at least -1074. -/
def roundMagnitude (a : ℚ) : ℚ :=
  let e : Int := max (Int.log 2 a - 52) (-1074)
  (roundHalfEven (a / (2 : ℚ) ^ e) : ℚ) * (2 : ℚ) ^ e

/-- A value of Go's `float64`: a finite value, as the rational it denotes (the
sign of a zero is not kept), an infinity, or not a number. -/
inductive F64 where
  | finite (value : ℚ) : F64
  | inf (negative : Bool) : F64
  | nan : F64

/-- The `float64` nearest to the exact result `q` (IEEE 754 binary64, round to
nearest, ties to even), infinite from `2 ^ 1024` on. -/
def round64 (q : ℚ) : F64 :=
  if q = 0 then .finite 0
  else
    let r := roundMagnitude |q|
    if (2 : ℚ) ^ (1024 : ℕ) ≤ r then .inf (decide (q < 0))
    else .finite (if q < 0 then -r else r)

/-- Go's `x + y` on `float64`. -/
def F64.add : F64 → F64 → F64
  | .finite a, .finite b => round64 (a + b)
  | .finite _, .inf s => .inf s
  | .inf s, .finite _ => .inf s
  | .inf s, .inf t => if s = t then .inf s else .nan
  | _, _ => .nan

/-- Go's `x * c` on `float64`, for a finite constant `c > 0`. -/
def F64.mulConst (c : ℚ) : F64 → F64
  | .finite a => round64 (a * c)
  | .inf s => .inf s
  | .nan => .nan

/-- Go's `x / c` on `float64`, for a finite constant `c > 0`. -/
def F64.divConst (c : ℚ) : F64 → F64
  | .finite a => round64 (a / c)
  | .inf s => .inf s
  | .nan => .nan

/-- Go's `x > 0` on `float64`. -/
def F64.pos : F64 → Bool
  | .finite q => decide (0 < q)
  | .inf negative => !negative
  | .nan => false

/-- Go's `int(x)` of a `float64` (`int` is 64 bits wide): the fraction is
discarded; when the result is not an `int64` the language leaves the value to
the implementation, and it is `outOfRange x`. -/
def F64.toInt (outOfRange : F64 → Int) (x : F64) : Int :=
  match x with
  | .finite q =>
    let t : Int := if 0 ≤ q then ⌊q⌋ else ⌈q⌉
    if -9223372036854775808 ≤ t ∧ t < 9223372036854775808 then t else outOfRange x
  | _ => outOfRange x

/-- The conversion of amd64 where the result is not an `int64`: `-2^63`. -/
def minInt64OnOverflow : F64 → Int :=
  fun _ => -9223372036854775808

/-- Go's `float64(n)` of an integer. -/
def F64.ofInt (n : Int) : F64 := round64 n

/-- A `float64` that arithmetic can produce: a finite value is one that rounding
leaves as it is. -/
def F64.Rounded : F64 → Prop
  | .finite r => round64 r = .finite r
  | _ => True


/-! ## `calculateContextUsage` -/

/-- A decoded JSON value (`interface{}` as `encoding/json` fills it).  A number
is the `float64` that the decoder produced, as the rational it denotes.  An
object is the decoded `map[string]interface{}` as an association list, read
with `List.lookup`. -/
inductive Json where
  | null : Json
  | bool (b : Bool) : Json
  | number (x : ℚ) : Json
  | string (s : String) : Json
  | array (items : List Json) : Json
  | object (fields : List (String × Json)) : Json

/-- One line of the transcript as the loop of `calculateContextUsage` sees it:
`strings.TrimSpace(line) == ""`, or `json.Unmarshal([]byte(line), &data)`
returns an error, or it fills the map `data`. -/
inductive Line where
  | blank : Line
  | invalid : Line
  | record (data : List (String × Json)) : Line

/-- Go: `if v, ok := usage[key].(float64); ok { total += v }`. -/
def addTokens (usage : List (String × Json)) (key : String) (total : F64) : F64 :=
  match usage.lookup key with
  | some (.number x) => F64.add total (.finite x)
  | _ => total

/-- The body of the loop `for i := len(lines) - 1; i >= 0; i--` of
`calculateContextUsage` on one line: `some v` when it returns `v`, `none` when
it goes on to the next line. -/
def scanLine (outOfRange : F64 → Int) : Line → Option Int
  | .blank => none
  | .invalid => none
  | .record data =>
    match data.lookup "isSidechain" with
    | some (.bool true) => none
    | _ =>
      match data.lookup "message" with
      | some (.object message) =>
        match message.lookup "usage" with
        | some (.object usage) =>
          let total := addTokens usage "cache_creation_input_tokens"
            (addTokens usage "cache_read_input_tokens"
              (addTokens usage "input_tokens" (.finite 0)))
          if total.pos then some (total.toInt outOfRange) else none
        | _ => none
      | _ => none

/-- The loop of `calculateContextUsage` over the lines taken newest first, and
the `return 0` after it. -/
def scanBackward (outOfRange : F64 → Int) : List Line → Int
  | [] => 0
  | line :: older =>
    match scanLine outOfRange line with
    | some v => v
    | none => scanBackward outOfRange older

/-- Go: `start := len(allLines) - 100; if start < 0 { start = 0 }; lines = allLines[start:]`. -/
def lastLines (allLines : List Line) : List Line :=
  let start : Int := (allLines.length : Int) - 100
  let start := if start < 0 then 0 else start
  allLines.drop start.toNat

/-- Go: `calculateContextUsage`; `file` is `none` when the transcript cannot be
opened, and otherwise the lines that the scanner has read into `allLines`;
`outOfRange` is what `int(total)` gives when `total` is not an `int64`. -/
def calculateContextUsage (outOfRange : F64 → Int) (file : Option (List Line)) : Int :=
  match file with
  | none => 0
  | some allLines => scanBackward outOfRange (lastLines allLines).reverse


/-! ## `getGitBranch` -/

/-- Go: `unicode.IsSpace`, on the code point of the character. -/
def isSpace (c : Char) : Bool :=
  let n := c.toNat
  (9 ≤ n && n ≤ 13) || n == 32 || n == 133 || n == 160 || n == 5760 ||
    (8192 ≤ n && n ≤ 8202) || n == 8232 || n == 8233 || n == 8239 || n == 8287 || n == 12288

/-- Go: `strings.TrimSpace`. -/
def trimSpace (s : String) : String :=
  ⟨((s.data.dropWhile isSpace).reverse.dropWhile isSpace).reverse⟩

/-- Go: the package variables `gitBranchCache` and `gitBranchExpires`; an
instant (`time.Time`) is embedded as its number of nanoseconds on the clock
of the process. -/
structure GitCache where
  gitBranchCache : String
  gitBranchExpires : Int
  deriving DecidableEq, Repr

/-- What the lookups of `getGitBranch` yield when they are run: whether
`os.Stat(".git")` reports that it does not exist, whether
`git rev-parse --git-dir` returns an error, and the output of
`git branch --show-current` (`none` when it returns an error). -/
structure GitEnv where
  dotGitMissing : Bool
  revParseFails : Bool
  branchOutput : Option String
  deriving DecidableEq, Repr

/-- The outcome of one call of `getGitBranch`: the string returned, the package
variables after the call, and whether the call went past the cached value to
the lookups. -/
structure BranchCall where
  result : String
  cache : GitCache
  lookedUp : Bool
  deriving DecidableEq, Repr

/-- Go: `getGitBranch`, on the package variables `cache`; `now` is the
`time.Now()` of the test `time.Now().Before(gitBranchExpires)` and `storeNow`
the `time.Now()` of `time.Now().Add(5 * time.Second)`. -/
def getGitBranch (cache : GitCache) (now storeNow : Int) (env : GitEnv) : BranchCall :=
  if now < cache.gitBranchExpires ∧ cache.gitBranchCache ≠ "" then
    { result := cache.gitBranchCache, cache := cache, lookedUp := false }
  else if env.dotGitMissing && env.revParseFails then
    { result := "", cache := cache, lookedUp := true }
  else
    match env.branchOutput with
    | none => { result := "", cache := cache, lookedUp := true }
    | some output =>
      let branch := trimSpace output
      if branch = "" then { result := "", cache := cache, lookedUp := true }
      else
        let result := " ⚡ " ++ branch
        { result := result,
          cache := { gitBranchCache := result, gitBranchExpires := storeNow + 5000000000 },
          lookedUp := true }

/-! ## `analyzeContext` -/

/-- Go: `ColorReset`. -/
def ColorReset : String := "\\033[0m"

/-- Go: `ColorGray`. -/
def ColorGray : String := "\\033[38;2;64;64;64m"

/-- Go: `ColorCtxGreen`. -/
def ColorCtxGreen : String := "\\033[38;2;108;167;108m"

/-- Go: `ColorCtxGold`. -/
def ColorCtxGold : String := "\\033[38;2;188;155;83m"

/-- Go: `ColorCtxRed`. -/
def ColorCtxRed : String := "\\033[38;2;185;102;82m"

/-- Go: `getContextColor`. -/
def getContextColor (percentage : Int) : String :=
  if percentage < 60 then ColorCtxGreen
  else if percentage < 80 then ColorCtxGold
  else ColorCtxRed

/-- The string made of `count` copies of `s`. -/
def repeatString (s : String) : Nat → String
  | 0 => ""
  | count + 1 => s ++ repeatString s count

/-- Go: `strings.Repeat(s, count)`; `none` when the call does not return: it
panics on a negative count and on a result of more than `2^63 - 1` bytes, and
the allocation of the result, of `len(s) * count` bytes, fails when that is
more than the runtime can allocate (`allocLimit` bytes). -/
def strRepeat (allocLimit : Nat) (s : String) (count : Int) : Option String :=
  if count = 0 then some ""
  else if count = 1 then some s
  else if count < 0 then none
  else if s.utf8ByteSize * count.toNat > 9223372036854775807 then none
  else if s.utf8ByteSize * count.toNat > allocLimit then none
  else some (repeatString s count.toNat)

/-- Go: `generateProgressBar`; `/` is Go's division, which truncates; `none`
when a call of `strings.Repeat` does not return. -/
def generateProgressBar (allocLimit : Nat) (percentage : Int) : Option String :=
  let width : Int := 10
  let filled := Int.tdiv (wrap64 (percentage * width)) 100
  let filled := if filled > width then width else filled
  let empty := sub64 width filled
  let color := getContextColor percentage
  let filledPart : Option String :=
    if filled > 0 then
      match strRepeat allocLimit "█" filled with
      | none => none
      | some blocks => some (color ++ blocks ++ ColorReset)
    else some ""
  let emptyPart : Option String :=
    if empty > 0 then
      match strRepeat allocLimit "░" empty with
      | none => none
      | some blocks => some (ColorGray ++ blocks ++ ColorReset)
    else some ""
  match filledPart, emptyPart with
  | some a, some b => some (a ++ b)
  | _, _ => none

/-- Go: `formatNumber`. -/
def formatNumber (num : Int) : String :=
  if num = 0 then "--"
  else if num ≥ 1000000 then toString (Int.tdiv num 1000000) ++ "M"
  else if num ≥ 1000 then toString (Int.tdiv num 1000) ++ "k"
  else toString num

/-- Go: `percentage := int(float64(contextLength) * 100.0 / 200000.0)` followed
by `if percentage > 100 { percentage = 100 }`. -/
def contextPercentage (outOfRange : F64 → Int) (contextLength : Int) : Int :=
  let percentage :=
    F64.toInt outOfRange (F64.divConst 200000 (F64.mulConst 100 (F64.ofInt contextLength)))
  if percentage > 100 then 100 else percentage

/-- Go: `analyzeContext`; `file` is what `calculateContextUsage` finds at
`transcriptPath`; `none` when `generateProgressBar` does not return. -/
def analyzeContext (outOfRange : F64 → Int) (allocLimit : Nat) (transcriptPath : String)
    (file : Option (List Line)) : Option String :=
  let contextLength :=
    if transcriptPath = "" then 0 else calculateContextUsage outOfRange file
  let percentage := contextPercentage outOfRange contextLength
  match generateProgressBar allocLimit percentage with
  | none => none
  | some progressBar =>
    let formattedNum := formatNumber contextLength
    let color := getContextColor percentage
    some (" | " ++ progressBar ++ " " ++ color ++ toString percentage ++ "% " ++ formattedNum
      ++ ColorReset)


/-! ## `main` -/

/-- Go: `type Result struct { Type string; Data interface{} }`; the field
`Type` is `Tag` here, and `Data` is the string that `main` asserts it to be. -/
structure Result where
  Tag : String
  Data : String
  deriving DecidableEq, Repr

/-- Go: the variables `gitBranch, totalHours, contextUsage, userMessage` of `main`. -/
structure Slots where
  gitBranch : String
  totalHours : String
  contextUsage : String
  userMessage : String
  deriving DecidableEq, Repr

/-- The body of the loop `for result := range results` of `main`: the `switch`
on `result.Type`. -/
def collectResult (slots : Slots) (result : Result) : Slots :=
  if result.Tag = "git" then { slots with gitBranch := result.Data }
  else if result.Tag = "hours" then { slots with totalHours := result.Data }
  else if result.Tag = "context" then { slots with contextUsage := result.Data }
  else if result.Tag = "message" then { slots with userMessage := result.Data }
  else slots

/-- The collection loop of `main` over the results in the order in which they
arrive on the channel, from `var gitBranch, totalHours, contextUsage, userMessage string`. -/
def collect (arrivals : List Result) : Slots :=
  arrivals.foldl collectResult
    { gitBranch := "", totalHours := "", contextUsage := "", userMessage := "" }

/-- The sessions directory as `os.ReadDir` and the reads of its entries show
it: `none` when `os.ReadDir` returns an error, otherwise the names of its
entries with what reading and decoding each yields. -/
abbrev Store := Option (List (String × FileData))

/-- What reading and decoding the entry `name` of the sessions directory
yields; an entry that is not listed cannot be read. -/
def readSessionFile (store : Store) (name : String) : FileData :=
  match store with
  | none => .unreadable
  | some entries => (entries.lookup name).getD .unreadable

/-- The elements of a path, between its separators `/`. -/
def splitPath : List Char → List (List Char)
  | [] => [[]]
  | c :: rest =>
    if c = '/' then [] :: splitPath rest
    else
      match splitPath rest with
      | [] => [[c]]
      | first :: more => (c :: first) :: more

/-- The elements of a path as strings. -/
def pathElements (path : String) : List String :=
  (splitPath path.data).map String.mk

/-- Whether a path starts at the root. -/
def isRooted (path : String) : Bool :=
  match path.data with
  | c :: _ => c == '/'
  | [] => false

/-- One element in the loop of Go's `filepath.Clean` on a Unix path; `kept`
holds the elements written so far, the last one first.  An empty element and
`.` are skipped; `..` removes the last element written when that is not `..`
itself, is dropped at the root, and is written otherwise; any other element is
written. -/
def cleanElement (rooted : Bool) (kept : List String) (element : String) : List String :=
  if element = "" ∨ element = "." then kept
  else if element = ".." then
    match kept with
    | [] => if rooted then [] else [".."]
    | last :: before => if last = ".." then ".." :: last :: before else before
  else element :: kept

/-- Go: `sessionsDir := filepath.Join(homeDir, ".claude", "session-tracker", "sessions")`,
as the elements of the cleaned path, the last one first. -/
def sessionsDir (homeDir : String) : List String :=
  (pathElements homeDir ++ [".claude", "session-tracker", "sessions"]).foldl
    (cleanElement (isRooted homeDir)) []

/-- Go: `sessionFile := filepath.Join(sessionsDir, sessionID+".json")`, as the
elements of the cleaned path, the last one first: the cleaning goes on from the
elements of `sessionsDir`, so that `.` and `..` in `sessionID` are resolved. -/
def sessionFile (homeDir sessionID : String) : List String :=
  (pathElements (sessionID ++ ".json")).foldl (cleanElement (isRooted homeDir))
    (sessionsDir homeDir)

/-- The entry of the sessions directory that `sessionFile` names: `none` when
the path leads to a file that is not an entry of that directory. -/
def sessionEntry (homeDir sessionID : String) : Option String :=
  match sessionFile homeDir sessionID with
  | [] => none
  | name :: directory => if directory = sessionsDir homeDir then some name else none

/-- What `os.MkdirAll(sessionsDir, 0755)` does: it returns an error, or it
finds the directory, or it creates it (readable). -/
inductive MkdirResult where
  | failed : MkdirResult
  | existed : MkdirResult
  | created : MkdirResult
  deriving DecidableEq, Repr

/-- What `os.WriteFile(sessionFile, data, 0644)` leaves: the file holds the data
written; or the call fails and the file is as it was (absent when it was
absent); or the file is left reading as `left` (truncated, written in part, or
not readable).  `updateSession` ignores the error that the call returns. -/
inductive WriteResult where
  | stored : WriteResult
  | refused : WriteResult
  | damaged (left : FileData) : WriteResult
  deriving DecidableEq, Repr

/-- The sessions directory after `os.MkdirAll` has returned without an error:
a directory that it has created is empty. -/
def afterMkdir (mkdir : MkdirResult) (store : Store) : Store :=
  match mkdir, store with
  | .created, none => some []
  | _, store => store

/-- The entries with `name` reading as `data`: the entry is replaced where it
is listed, and added otherwise, before the first entry of a greater name
(`os.ReadDir` lists the entries sorted by name). -/
def putEntry (name : String) (data : FileData) :
    List (String × FileData) → List (String × FileData)
  | [] => [(name, data)]
  | entry :: rest =>
    if entry.1 = name then (name, data) :: rest
    else if name < entry.1 then (name, data) :: entry :: rest
    else entry :: putEntry name data rest

/-- Go: `type Input struct`, the fields that `main` passes on. -/
structure Input where
  SessionID : String
  TranscriptPath : String
  deriving DecidableEq, Repr

/-- What one invocation of `main` meets outside the sessions directory: the
result of `os.UserHomeDir` (`none` for an error), the clock and lookups of
`getGitBranch`, the clock of `calculateTotalHours`, the transcript, the
conversion `int(x)` where the result is not an `int64`, the number of bytes
that the runtime can allocate at most for one string, the string
`extractUserMessage` returns, the order in which the four results arrive on
the channel, and for `updateSession` the result of `os.MkdirAll`, the clock and
the result of `os.WriteFile`. -/
structure World where
  homeDir : Option String
  gitNow : Int
  gitStoreNow : Int
  git : GitEnv
  hoursTick : Tick
  transcript : Option (List Line)
  outOfRange : F64 → Int
  allocLimit : Nat
  userMessage : String
  arrival : List Result → List Result
  mkdir : MkdirResult
  heartbeatTick : Tick
  write : WriteResult

/-- Go: `updateSession`, on the sessions directory.  Nothing is written when
`os.UserHomeDir` or `os.MkdirAll` returns an error.  When `sessionFile` is an
entry of the directory, the record is computed from what that entry reads as
and the entry becomes what `os.WriteFile` leaves.  When `sessionFile` leads
elsewhere, or when the directory cannot be listed, the file that is written is
not among the entries listed, which read as before (a file outside the
directory is taken not to be linked from inside it). -/
def updateSessionFile (world : World) (sessionID : String) (store : Store) : Store :=
  match world.homeDir with
  | none => store
  | some homeDir =>
    if world.mkdir = .failed then store
    else
      match sessionEntry homeDir sessionID, afterMkdir world.mkdir store with
      | some name, some entries =>
        let session := updateSession sessionID world.heartbeatTick.today
          world.heartbeatTick.unix ((entries.lookup name).getD .unreadable)
        match world.write with
        | .stored => some (putEntry name (.valid session) entries)
        | .refused => some entries
        | .damaged left => some (putEntry name left entries)
      | _, directory => directory

/-- The outcome of one invocation of `main` that runs to its end: the four
collected values that it prints, and the sessions directory after it. -/
structure Outcome where
  printed : Slots
  store : Store

/-- The four results that the goroutines of `main` send, in the order in which
the goroutines are started; `none` when `analyzeContext` does not return, which
ends the process. -/
def sentResults (input : Input) (world : World) (store : Store) : Option (List Result) :=
  match analyzeContext world.outOfRange world.allocLimit input.TranscriptPath
      world.transcript with
  | none => none
  | some contextInfo =>
    some [{ Tag := "git",
            Data := (getGitBranch { gitBranchCache := "", gitBranchExpires := 0 }
              world.gitNow world.gitStoreNow world.git).result },
          { Tag := "hours",
            Data := calculateTotalHours world.hoursTick.today world.hoursTick.unix
              (if world.homeDir.isSome then store else none) },
          { Tag := "context", Data := contextInfo },
          { Tag := "message", Data := world.userMessage }]

/-- Go: `main` after the input is decoded: the four results are computed on the
sessions directory as it is and collected in their order of arrival, and then
`updateSession(input.SessionID)` is called.  The result is `none` when the
process is ended by the panic of a goroutine, with exit status 2: what the
main goroutine has done by then is not determined (the deferred `wg.Done()`
of the panicking goroutine runs before the process ends), and no outcome is
given. -/
def main (input : Input) (world : World) (store : Store) : Option Outcome :=
  match sentResults input world store with
  | none => none
  | some results =>
    let slots := collect (world.arrival results)
    let store := updateSessionFile world input.SessionID store
    some { printed := slots, store := store }

/-! ## Notions of the specification -/

/-- Sum of `End - Start` over the intervals whose `End` is present, in the integers. -/
def closedSum : List Interval → Int
  | [] => 0
  | iv :: rest =>
    (match iv.End with
      | some e => e - iv.Start
      | none => 0) + closedSum rest

/-- Gaps between consecutive heartbeats as `updateSession` computes them
(`gap := currentTime - session.LastHeartbeat`), the previous heartbeat being `last`. -/
def gapsFrom (last : Int) : List Tick → List Int
  | [] => []
  | tk :: rest => sub64 tk.unix last :: gapsFrom tk.unix rest

/-- Gaps between the consecutive heartbeats of a sequence. -/
def gaps : List Tick → List Int
  | [] => []
  | tk :: rest => gapsFrom tk.unix rest

/-- Differences between consecutive heartbeat times in the integers, the
previous heartbeat being `last`. -/
def elapsedFrom (last : Int) : List Tick → List Int
  | [] => []
  | tk :: rest => (tk.unix - last) :: elapsedFrom tk.unix rest

/-- Differences between the consecutive heartbeat times of a sequence, in the integers. -/
def elapsed : List Tick → List Int
  | [] => []
  | tk :: rest => elapsedFrom tk.unix rest

/-- The order of the specification on consecutive intervals: the next interval
starts strictly after the start of the previous one, and not before its end. -/
def precedes (a b : Interval) : Prop :=
  a.Start < b.Start ∧ ∀ e, a.End = some e → e ≤ b.Start

/-- The stored session record of a directory entry: the entry is a `.json`
file that is read and decoded without error. -/
def storedRecord (entry : String × FileData) : Option Session :=
  if hasSuffix entry.1 ".json" then
    match entry.2 with
    | .valid session => some session
    | _ => none
  else none

/-- The stored session records of a directory. -/
def storedRecords (entries : List (String × FileData)) : List Session :=
  entries.filterMap storedRecord

/-- The `TotalSeconds` of the stored records dated `today`. -/
def todaysTotals (today : String) (entries : List (String × FileData)) : List Int :=
  ((storedRecords entries).filter (fun s => decide (s.Date = today))).map (fun s => s.TotalSeconds)

/-- The number of stored records with `now - last_heartbeat < 600`, whatever their date. -/
def activeByHeartbeat (currentTime : Int) (entries : List (String × FileData)) : Nat :=
  (storedRecords entries).countP (fun s => decide (sub64 currentTime s.LastHeartbeat < 600))

/-- The number of stored records dated `today` with `now - last_heartbeat < 600`. -/
def activeToday (today : String) (currentTime : Int) (entries : List (String × FileData)) : Nat :=
  (storedRecords entries).countP
    (fun s => decide (s.Date = today) && decide (sub64 currentTime s.LastHeartbeat < 600))

/-- Whether a decoded record has `isSidechain` equal to the boolean `true`. -/
def isSideChain (data : List (String × Json)) : Bool :=
  match data.lookup "isSidechain" with
  | some (.bool true) => true
  | _ => false

/-- The object `message.usage` of a decoded record, when it has one. -/
def usageObject (data : List (String × Json)) : Option (List (String × Json)) :=
  match data.lookup "message" with
  | some (.object message) =>
    match message.lookup "usage" with
    | some (.object usage) => some usage
    | _ => none
  | _ => none

/-- A numeric field of `usage`, counted as 0 when missing or not a number. -/
def tokenField (usage : List (String × Json)) (key : String) : ℚ :=
  match usage.lookup key with
  | some (.number x) => x
  | _ => 0

/-- The token sum of the specification,
`input_tokens + cache_read_input_tokens + cache_creation_input_tokens`, in
`float64`. -/
def tokenSum (usage : List (String × Json)) : F64 :=
  F64.add
    (F64.add (F64.add (.finite 0) (.finite (tokenField usage "input_tokens")))
      (.finite (tokenField usage "cache_read_input_tokens")))
    (.finite (tokenField usage "cache_creation_input_tokens"))

/-- The lines that the estimate ignores: empty lines, lines that do not decode,
side-chain records, records without a `message.usage` object and records whose
token sum is not strictly positive. -/
def ignored : Line → Bool
  | .blank => true
  | .invalid => true
  | .record data =>
    isSideChain data ||
      match usageObject data with
      | none => true
      | some usage => !(tokenSum usage).pos

/-- Whether a line is a side-chain record. -/
def sideChainLine : Line → Bool
  | .record data => isSideChain data
  | _ => false

/-- Whether a line is empty (`strings.TrimSpace(line) == ""`). -/
def isBlank : Line → Bool
  | .blank => true
  | _ => false

/-- The reference estimator of the specification: discard the empty lines, keep
the last 100 of the remaining lines, scan those newest to oldest. -/
def referenceEstimate (outOfRange : F64 → Int) (allLines : List Line) : Int :=
  scanBackward outOfRange (lastLines (allLines.filter (fun l => !isBlank l))).reverse

/-- The decoded map of a record with the given `isSidechain` flag and
`input_tokens` in `message.usage`. -/
def usageData (sideChain : Bool) (tokens : ℚ) : List (String × Json) :=
  [("isSidechain", .bool sideChain),
    ("message", .object [("role", .string "assistant"),
      ("usage", .object [("input_tokens", .number tokens)])])]

/-- A record with the given `isSidechain` flag and `input_tokens` in `message.usage`. -/
def usageRecord (sideChain : Bool) (tokens : ℚ) : Line :=
  .record (usageData sideChain tokens)

/-- An object `usage` with the three token fields. -/
def usageFields (input cacheRead cacheCreation : ℚ) : List (String × Json) :=
  [("input_tokens", .number input), ("cache_read_input_tokens", .number cacheRead),
    ("cache_creation_input_tokens", .number cacheCreation)]

/-- The decoded map of a record without `isSidechain` whose `message.usage` has
the three token fields. -/
def fieldsData (input cacheRead cacheCreation : ℚ) : List (String × Json) :=
  [("message", .object [("usage", .object (usageFields input cacheRead cacheCreation))])]

/-- The lookups of `getGitBranch` fail or yield an empty branch name. -/
def emptyLoad (env : GitEnv) : Prop :=
  (env.dotGitMissing = true ∧ env.revParseFails = true) ∨ env.branchOutput = none ∨
    ∃ output, env.branchOutput = some output ∧ trimSpace output = ""


/-- The number of occurrences of the character `c` in `s`. -/
def countChar (c : Char) (s : String) : Nat :=
  s.data.count c

/-- The percentage of the specification: the share of a budget of 200000,
rounded down and capped at 100. -/
def budgetPercentage (n : Int) : Int :=
  min 100 (n * 100 / 200000)


/-- A sessions directory holding one session of 300 seconds. -/
def exampleStore : Store :=
  some [("s1.json", .valid ⟨"s1", "2024-01-01", 0, 300, 300, [⟨0, some 300⟩]⟩)]

/-- An invocation 400 seconds after the start of that session, outside a
repository and without a transcript, whose results arrive in the reverse of
the order in which the goroutines are started, and whose write succeeds. -/
def exampleWorld : World :=
  { homeDir := some "/home/u", gitNow := 0, gitStoreNow := 0,
    git := { dotGitMissing := true, revParseFails := true, branchOutput := none },
    hoursTick := { today := "2024-01-01", unix := 400 }, transcript := none,
    outOfRange := minInt64OnOverflow, allocLimit := 281474976710656,
    userMessage := "", arrival := List.reverse, mkdir := .existed,
    heartbeatTick := { today := "2024-01-01", unix := 400 }, write := .stored }

/-- That invocation on amd64 with a transcript whose last record has
`input_tokens` equal to `1e19`, which is not an `int64`. -/
def overflowWorld : World :=
  { exampleWorld with transcript := some [usageRecord false 10000000000000000000] }

/-! ## Arithmetic of `int64` -/

theorem wrap64_isInt64 (x : Int) : isInt64 (wrap64 x) := by
  unfold isInt64 wrap64; omega

theorem wrap64_of_isInt64 {x : Int} (h : isInt64 x) : wrap64 x = x := by
  unfold isInt64 at h; unfold wrap64; omega

theorem wrap64_add_wrap64 (a b : Int) : wrap64 (a + wrap64 b) = wrap64 (a + b) := by
  unfold wrap64; omega

theorem wrap64_wrap64_add (a b : Int) : wrap64 (wrap64 a + b) = wrap64 (a + b) := by
  unfold wrap64; omega

theorem sub64_self (a : Int) : sub64 a a = 0 := by
  unfold sub64 wrap64; omega

theorem sub64_eq_sub {a b : Int} (ha : 0 ≤ a) (ha' : isInt64 a) (hb : 0 ≤ b) (hb' : isInt64 b) :
    sub64 a b = a - b := by
  unfold isInt64 at ha' hb'; unfold sub64 wrap64; omega

/-! ## The recomputed total -/

theorem closedSum_append (l m : List Interval) :
    closedSum (l ++ m) = closedSum l + closedSum m := by
  induction l with
  | nil => simp [closedSum]
  | cons iv rest ih =>
    simp only [List.cons_append, closedSum, List.append_eq]
    rw [ih]; omega

theorem wrap64_foldl_addInterval (l : List Interval) :
    ∀ a : Int, wrap64 (l.foldl addInterval a) = wrap64 (a + closedSum l) := by
  induction l with
  | nil => intro a; simp [closedSum]
  | cons iv rest ih =>
    intro a
    rw [List.foldl_cons, ih]
    cases h : iv.End with
    | none => simp [addInterval, closedSum, h]
    | some e =>
      simp only [addInterval, closedSum, h, add64, sub64]
      unfold wrap64; omega

theorem isInt64_foldl_addInterval (l : List Interval) :
    ∀ a : Int, isInt64 a → isInt64 (l.foldl addInterval a) := by
  induction l with
  | nil => intro a ha; simpa using ha
  | cons iv rest ih =>
    intro a ha
    rw [List.foldl_cons]
    apply ih
    cases h : iv.End with
    | none => simpa [addInterval, h] using ha
    | some e => simpa [addInterval, h, add64] using wrap64_isInt64 _

theorem sumIntervals_eq (l : List Interval) : sumIntervals l = wrap64 (closedSum l) := by
  have h1 := wrap64_foldl_addInterval l 0
  have h2 : isInt64 (l.foldl addInterval 0) :=
    isInt64_foldl_addInterval l 0 (by unfold isInt64; omega)
  rw [wrap64_of_isInt64 h2] at h1
  simpa [sumIntervals] using h1

/-! ## One call of `updateSession` -/

theorem setLastEnd_append_one (init : List Interval) (x : Interval) (t : Int) :
    setLastEnd (init ++ [x]) t = init ++ [{ x with End := some t }] := by
  induction init with
  | nil => simp [setLastEnd]
  | cons iv rest ih =>
    cases rest with
    | nil => simp [setLastEnd]
    | cons jv rest2 =>
      simp only [List.cons_append, setLastEnd, List.append_eq] at ih ⊢
      rw [ih]

theorem length_setLastEnd (l : List Interval) (t : Int) :
    (setLastEnd l t).length = l.length := by
  induction l with
  | nil => simp [setLastEnd]
  | cons iv rest ih =>
    cases rest with
    | nil => simp [setLastEnd]
    | cons jv rest2 => simp only [setLastEnd, List.length_cons] at ih ⊢; omega

theorem updateSession_valid_lt (sid d : String) (t : Int) (s : Session)
    (h : sub64 t s.LastHeartbeat < 600) :
    updateSession sid d t (.valid s) =
      { s with LastHeartbeat := t, Intervals := setLastEnd s.Intervals t,
               TotalSeconds := sumIntervals (setLastEnd s.Intervals t) } := by
  cases hl : s.Intervals with
  | nil => simp [updateSession, loadSession, h, hl, setLastEnd]
  | cons iv rest => simp [updateSession, loadSession, h, hl]

theorem updateSession_valid_ge (sid d : String) (t : Int) (s : Session)
    (h : 600 ≤ sub64 t s.LastHeartbeat) :
    updateSession sid d t (.valid s) =
      { s with LastHeartbeat := t,
               Intervals := s.Intervals ++ [{ Start := t, End := some t }],
               TotalSeconds := sumIntervals (s.Intervals ++ [{ Start := t, End := some t }]) } := by
  have h' : ¬ sub64 t s.LastHeartbeat < 600 := by omega
  simp [updateSession, loadSession, h']

theorem updateSession_unreadable (sid d : String) (t : Int) :
    updateSession sid d t .unreadable =
      { ID := sid, Date := d, Start := t, LastHeartbeat := t, TotalSeconds := 0,
        Intervals := [{ Start := t, End := some t }] } := by
  have h0 : sub64 t t < 600 := by rw [sub64_self]; omega
  simp [updateSession, loadSession, h0, setLastEnd, sumIntervals, addInterval, sub64_self, add64]
  unfold wrap64; omega

theorem totalSeconds_eq_sumIntervals (sid d : String) (t : Int) (f : FileData) :
    (updateSession sid d t f).TotalSeconds = sumIntervals (updateSession sid d t f).Intervals := by
  simp only [updateSession]

/-! ## Sequences of heartbeats -/

theorem updateSessions_cons (sid : String) (s : Session) (tk : Tick) (rest : List Tick) :
    updateSessions sid s (tk :: rest) =
      updateSessions sid (updateSession sid tk.today tk.unix (.valid s)) rest := by
  simp [updateSessions]

theorem updateSessions_continuous (sid : String) (ticks : List Tick) :
    ∀ (s : Session) (tk : Tick) (a : Int), s.LastHeartbeat = tk.unix →
      s.Intervals = [{ Start := a, End := some tk.unix }] →
      s.TotalSeconds = sub64 tk.unix a →
      List.Chain (fun x y : Tick => sub64 y.unix x.unix < 600) tk ticks →
      (updateSessions sid s ticks).Intervals
          = [{ Start := a, End := some (ticks.getLastD tk).unix }] ∧
        (updateSessions sid s ticks).LastHeartbeat = (ticks.getLastD tk).unix ∧
        (updateSessions sid s ticks).TotalSeconds = sub64 (ticks.getLastD tk).unix a ∧
        (updateSessions sid s ticks).Start = s.Start := by
  induction ticks with
  | nil =>
    intro s tk a h1 h2 h3 _
    simp [updateSessions, h1, h2, h3]
  | cons t rest ih =>
    intro s tk a h1 h2 h3 hc
    rw [List.chain_cons] at hc
    obtain ⟨hgap, hrest⟩ := hc
    rw [updateSessions_cons, updateSession_valid_lt sid t.today t.unix s (by rw [h1]; exact hgap)]
    have := ih { s with LastHeartbeat := t.unix, Intervals := setLastEnd s.Intervals t.unix,
                        TotalSeconds := sumIntervals (setLastEnd s.Intervals t.unix) } t a rfl
      (by simp [h2, setLastEnd])
      (by simp [h2, setLastEnd, sumIntervals, addInterval, add64, sub64]; unfold wrap64; omega)
      hrest
    rw [List.getLastD_cons]
    exact this

theorem length_updateSessions (sid : String) (ticks : List Tick) :
    ∀ s : Session, (updateSessions sid s ticks).Intervals.length =
      s.Intervals.length +
        (gapsFrom s.LastHeartbeat ticks).countP (fun g => decide (600 ≤ g)) := by
  induction ticks with
  | nil => intro s; simp [updateSessions, gapsFrom]
  | cons t rest ih =>
    intro s
    rw [updateSessions_cons, ih]
    by_cases hgap : sub64 t.unix s.LastHeartbeat < 600
    · rw [updateSession_valid_lt sid t.today t.unix s hgap]
      have h' : ¬ 600 ≤ sub64 t.unix s.LastHeartbeat := by omega
      simp [gapsFrom, length_setLastEnd, h']
    · have h' : 600 ≤ sub64 t.unix s.LastHeartbeat := by omega
      rw [updateSession_valid_ge sid t.today t.unix s h']
      simp [gapsFrom, h']
      omega

theorem updateSessions_total (sid : String) (ticks : List Tick) :
    ∀ s : Session, s.TotalSeconds = sumIntervals s.Intervals →
      (updateSessions sid s ticks).TotalSeconds
        = sumIntervals (updateSessions sid s ticks).Intervals := by
  induction ticks with
  | nil => intro s h; simpa [updateSessions] using h
  | cons t rest ih =>
    intro s _
    rw [updateSessions_cons]
    exact ih _ (totalSeconds_eq_sumIntervals sid t.today t.unix (.valid s))

theorem closedSum_updateSessions (sid : String) (ticks : List Tick) :
    ∀ s : Session,
      (∃ init a, s.Intervals = init ++ [{ Start := a, End := some s.LastHeartbeat }]) →
      wrap64 (closedSum (updateSessions sid s ticks).Intervals) =
        wrap64 (closedSum s.Intervals +
          ((gapsFrom s.LastHeartbeat ticks).filter (fun g => decide (g < 600))).sum) := by
  induction ticks with
  | nil => intro s _; simp [updateSessions, gapsFrom]
  | cons t rest ih =>
    intro s hs
    obtain ⟨init, a, hs⟩ := hs
    rw [updateSessions_cons]
    by_cases hgap : sub64 t.unix s.LastHeartbeat < 600
    · rw [updateSession_valid_lt sid t.today t.unix s hgap, ih _ ⟨init, a, by
        simp [hs, setLastEnd_append_one]⟩]
      simp only [hs, setLastEnd_append_one, closedSum_append, closedSum, gapsFrom,
        List.filter_cons, hgap, decide_True, if_true, List.sum_cons]
      unfold sub64 wrap64 at *
      omega
    · have h' : 600 ≤ sub64 t.unix s.LastHeartbeat := by omega
      rw [updateSession_valid_ge sid t.today t.unix s h', ih _ ⟨s.Intervals, t.unix, by simp⟩]
      simp only [closedSum_append, closedSum, gapsFrom,
        List.filter_cons, hgap, decide_False, Bool.false_eq_true, if_false]
      congr 1
      simp

theorem gapsFrom_eq_elapsedFrom (ticks : List Tick) :
    ∀ tk0 : Tick, List.Chain (fun x y : Tick => x.unix ≤ y.unix) tk0 ticks →
      (ticks.getLastD tk0).unix - tk0.unix < 9223372036854775808 →
      gapsFrom tk0.unix ticks = elapsedFrom tk0.unix ticks ∧
        tk0.unix ≤ (ticks.getLastD tk0).unix ∧
        0 ≤ ((elapsedFrom tk0.unix ticks).filter (fun g => decide (g < 600))).sum ∧
        ((elapsedFrom tk0.unix ticks).filter (fun g => decide (g < 600))).sum
          ≤ (ticks.getLastD tk0).unix - tk0.unix := by
  induction ticks with
  | nil => intro tk0 _ _; simp [gapsFrom, elapsedFrom]
  | cons t rest ih =>
    intro tk0 hc hspan
    rw [List.chain_cons] at hc
    obtain ⟨hle, hrest⟩ := hc
    rw [List.getLastD_cons] at hspan ⊢
    obtain ⟨h1, h2, h3, h4⟩ := ih t hrest (by omega)
    have hsub : sub64 t.unix tk0.unix = t.unix - tk0.unix := by
      unfold sub64 wrap64; omega
    refine ⟨by simp [gapsFrom, elapsedFrom, h1, hsub], by omega, ?_, ?_⟩
    · by_cases hg : t.unix - tk0.unix < 600
      · simp only [elapsedFrom, List.filter_cons, hg, decide_True, if_true, List.sum_cons]
        omega
      · simp only [elapsedFrom, List.filter_cons, hg, decide_False, Bool.false_eq_true, if_false]
        exact h3
    · by_cases hg : t.unix - tk0.unix < 600
      · simp only [elapsedFrom, List.filter_cons, hg, decide_True, if_true, List.sum_cons]
        omega
      · simp only [elapsedFrom, List.filter_cons, hg, decide_False, Bool.false_eq_true, if_false]
        omega

/-! ## Heartbeats from an absent session file -/

/-- C1: starting from an absent session file, after a non-empty sequence of
heartbeats in which every gap computed by `updateSession` is below 600, the
session has exactly one interval, from the first heartbeat to the last, and
`TotalSeconds` is `LastHeartbeat - Start` (Go's `int64` subtraction, which is
the subtraction of the integers whenever that difference is an `int64`). -/
theorem fromAbsent_short_gaps (sid : String) (tick : Tick) (ticks : List Tick)
    (h : List.Chain (fun x y : Tick => sub64 y.unix x.unix < 600) tick ticks) :
    (fromAbsent sid tick ticks).Intervals.length = 1 ∧
      (fromAbsent sid tick ticks).Intervals
        = [{ Start := tick.unix, End := some (ticks.getLastD tick).unix }] ∧
      (fromAbsent sid tick ticks).Start = tick.unix ∧
      (fromAbsent sid tick ticks).LastHeartbeat = (ticks.getLastD tick).unix ∧
      (fromAbsent sid tick ticks).TotalSeconds
        = sub64 (fromAbsent sid tick ticks).LastHeartbeat (fromAbsent sid tick ticks).Start ∧
      (isInt64 ((fromAbsent sid tick ticks).LastHeartbeat - (fromAbsent sid tick ticks).Start) →
        (fromAbsent sid tick ticks).TotalSeconds
          = (fromAbsent sid tick ticks).LastHeartbeat - (fromAbsent sid tick ticks).Start) := by
  have h0 := updateSession_unreadable sid tick.today tick.unix
  obtain ⟨h1, h2, h3, h4⟩ := updateSessions_continuous sid ticks
    (updateSession sid tick.today tick.unix .unreadable) tick tick.unix
    (by rw [h0]) (by rw [h0]) (by rw [h0, sub64_self]) h
  have h5 : (fromAbsent sid tick ticks).Start = tick.unix := by
    unfold fromAbsent; rw [h4, h0]
  unfold fromAbsent at h5 ⊢
  refine ⟨by rw [h1]; rfl, h1, h5, h2, by rw [h3, h2, h5], fun hr => ?_⟩
  rw [h3, h2, h5] at *
  exact wrap64_of_isInt64 hr

/-- C1, on the scenario of the specification: heartbeats at 0 and 300. -/
theorem fromAbsent_short_gaps_witness :
    List.Chain (fun x y : Tick => sub64 y.unix x.unix < 600)
        { today := "2024-01-01", unix := 0 } [{ today := "2024-01-01", unix := 300 }] ∧
      (fromAbsent "s1" { today := "2024-01-01", unix := 0 }
          [{ today := "2024-01-01", unix := 300 }]).Intervals
        = [{ Start := 0, End := some 300 }] ∧
      (fromAbsent "s1" { today := "2024-01-01", unix := 0 }
          [{ today := "2024-01-01", unix := 300 }]).TotalSeconds = 300 :=
  have hc : List.Chain (fun x y : Tick => sub64 y.unix x.unix < 600)
      { today := "2024-01-01", unix := 0 } [{ today := "2024-01-01", unix := 300 }] :=
    List.Chain.cons (by decide) List.Chain.nil
  have h := fromAbsent_short_gaps "s1" { today := "2024-01-01", unix := 0 }
    [{ today := "2024-01-01", unix := 300 }] hc
  ⟨hc, h.2.1, h.2.2.2.2.2 (by decide)⟩

/-- C2: starting from an absent session file, after any non-empty sequence of
heartbeats the number of intervals is the number of gaps of at least 600
(a gap of exactly 600 included) plus one. -/
theorem fromAbsent_intervals_length (sid : String) (tick : Tick) (ticks : List Tick) :
    (fromAbsent sid tick ticks).Intervals.length
      = (gaps (tick :: ticks)).countP (fun g => decide (600 ≤ g)) + 1 := by
  unfold fromAbsent
  rw [length_updateSessions, updateSession_unreadable]
  simp [gaps]
  omega

/-- C3: starting from an absent session file, after any non-empty sequence of
heartbeats `TotalSeconds` is the `int64` sum of the gaps below 600, a gap of
600 or more contributing nothing; when the heartbeat times are non-decreasing
and the time from the first to the last is an `int64`, this is the sum in the
integers of the consecutive differences that are below 600. -/
theorem fromAbsent_total_short_gaps (sid : String) (tick : Tick) (ticks : List Tick) :
    (fromAbsent sid tick ticks).TotalSeconds
        = wrap64 (((gaps (tick :: ticks)).filter (fun g => decide (g < 600))).sum) ∧
      (List.Chain (fun x y : Tick => x.unix ≤ y.unix) tick ticks →
        (ticks.getLastD tick).unix - tick.unix < 9223372036854775808 →
        (fromAbsent sid tick ticks).TotalSeconds
          = ((elapsed (tick :: ticks)).filter (fun g => decide (g < 600))).sum) := by
  have h0 := updateSession_unreadable sid tick.today tick.unix
  have ht := updateSessions_total sid ticks (updateSession sid tick.today tick.unix .unreadable)
    (totalSeconds_eq_sumIntervals sid tick.today tick.unix .unreadable)
  have hc := closedSum_updateSessions sid ticks
    (updateSession sid tick.today tick.unix .unreadable) ⟨[], tick.unix, by rw [h0]; rfl⟩
  have key : (fromAbsent sid tick ticks).TotalSeconds
      = wrap64 (((gaps (tick :: ticks)).filter (fun g => decide (g < 600))).sum) := by
    unfold fromAbsent
    rw [ht, sumIntervals_eq, hc, h0]
    simp [closedSum, gaps]
  refine ⟨key, fun hmono hspan => ?_⟩
  obtain ⟨h1, _, h3, h4⟩ := gapsFrom_eq_elapsedFrom ticks tick hmono hspan
  rw [key]
  simp only [gaps, elapsed, h1]
  apply wrap64_of_isInt64
  unfold isInt64
  omega

/-- C3, on heartbeats at 0, 300, 1200 and 1300: the gap of 900 is not counted. -/
theorem fromAbsent_total_short_gaps_witness :
    List.Chain (fun x y : Tick => x.unix ≤ y.unix) { today := "2024-01-01", unix := 0 }
        [{ today := "2024-01-01", unix := 300 }, { today := "2024-01-01", unix := 1200 },
          { today := "2024-01-01", unix := 1300 }] ∧
      (fromAbsent "s1" { today := "2024-01-01", unix := 0 }
        [{ today := "2024-01-01", unix := 300 }, { today := "2024-01-01", unix := 1200 },
          { today := "2024-01-01", unix := 1300 }]).TotalSeconds = 400 :=
  have hc : List.Chain (fun x y : Tick => x.unix ≤ y.unix) { today := "2024-01-01", unix := 0 }
      [{ today := "2024-01-01", unix := 300 }, { today := "2024-01-01", unix := 1200 },
        { today := "2024-01-01", unix := 1300 }] :=
    List.Chain.cons (by decide) (List.Chain.cons (by decide)
      (List.Chain.cons (by decide) List.Chain.nil))
  ⟨hc, (fromAbsent_total_short_gaps "s1" { today := "2024-01-01", unix := 0 }
    [{ today := "2024-01-01", unix := 300 }, { today := "2024-01-01", unix := 1200 },
      { today := "2024-01-01", unix := 1300 }]).2 hc (by decide)⟩

/-! ## The record written by one call -/

theorem updateSession_ignores_total (sid d : String) (t : Int) (s : Session) (x : Int) :
    updateSession sid d t (.valid { s with TotalSeconds := x })
      = updateSession sid d t (.valid s) := by
  simp only [updateSession, loadSession]
  split <;> (try split) <;> rfl

/-- C4: whatever the session file holds, the record `updateSession` writes has
`TotalSeconds` equal to the `int64` sum of `End - Start` over its intervals
with a present `End` (the sum in the integers whenever that sum is an
`int64`), and replacing the stored `TotalSeconds` of the prior record by any
other value does not change the record written. -/
theorem updateSession_total_recomputed (sid d : String) (t : Int) (file : FileData) :
    (updateSession sid d t file).TotalSeconds
        = wrap64 (closedSum (updateSession sid d t file).Intervals) ∧
      (isInt64 (closedSum (updateSession sid d t file).Intervals) →
        (updateSession sid d t file).TotalSeconds
          = closedSum (updateSession sid d t file).Intervals) ∧
      (∀ (prior : Session) (x : Int),
        updateSession sid d t (.valid { prior with TotalSeconds := x })
          = updateSession sid d t (.valid prior)) ∧
      (∀ (residue : Session) (x : Int),
        updateSession sid d t (.malformed { residue with TotalSeconds := x })
          = updateSession sid d t (.malformed residue)) := by
  have h := totalSeconds_eq_sumIntervals sid d t file
  rw [sumIntervals_eq] at h
  refine ⟨h, fun hr => ?_, updateSession_ignores_total sid d t, fun residue x => ?_⟩
  · rw [h]; exact wrap64_of_isInt64 hr
  · exact updateSession_ignores_total sid d t residue x

/-- C4, on a stored record whose `TotalSeconds` is wrong (7 instead of 300). -/
theorem updateSession_total_recomputed_witness :
    isInt64 (closedSum (updateSession "s1" "2024-01-01" 400 (.valid
        { ID := "s1", Date := "2024-01-01", Start := 0, LastHeartbeat := 300, TotalSeconds := 7,
          Intervals := [{ Start := 0, End := some 300 }] })).Intervals) ∧
      (updateSession "s1" "2024-01-01" 400 (.valid
        { ID := "s1", Date := "2024-01-01", Start := 0, LastHeartbeat := 300, TotalSeconds := 7,
          Intervals := [{ Start := 0, End := some 300 }] })).TotalSeconds = 400 :=
  ⟨by decide, (updateSession_total_recomputed "s1" "2024-01-01" 400 (.valid
        { ID := "s1", Date := "2024-01-01", Start := 0, LastHeartbeat := 300, TotalSeconds := 7,
          Intervals := [{ Start := 0, End := some 300 }] })).2.1 (by decide)⟩

/-- C5: on a stored record whose `TotalSeconds` is the `int64` sum of its closed
interval durations, a heartbeat whose gap is at least 600 leaves the previous
intervals unchanged, appends exactly the interval from `now` to `now`, and
leaves `TotalSeconds` unchanged. -/
theorem updateSession_gap_appends (sid d : String) (t : Int) (s : Session)
    (htotal : s.TotalSeconds = wrap64 (closedSum s.Intervals))
    (hgap : 600 ≤ sub64 t s.LastHeartbeat) :
    (updateSession sid d t (.valid s)).Intervals
        = s.Intervals ++ [{ Start := t, End := some t }] ∧
      (updateSession sid d t (.valid s)).TotalSeconds = s.TotalSeconds := by
  rw [updateSession_valid_ge sid d t s hgap]
  refine ⟨rfl, ?_⟩
  simp only [sumIntervals_eq, closedSum_append, closedSum, htotal]
  congr 1
  omega

/-- C5, on the scenario of the specification: interval from 0 to 300, total 300,
heartbeat at 1200. -/
theorem updateSession_gap_appends_witness :
    (300 : Int) = wrap64 (closedSum [{ Start := 0, End := some 300 }]) ∧
      600 ≤ sub64 1200 300 ∧
      (updateSession "s1" "2024-01-01" 1200 (.valid
        { ID := "s1", Date := "2024-01-01", Start := 0, LastHeartbeat := 300,
          TotalSeconds := 300, Intervals := [{ Start := 0, End := some 300 }] })).Intervals
        = [{ Start := 0, End := some 300 }, { Start := 1200, End := some 1200 }] ∧
      (updateSession "s1" "2024-01-01" 1200 (.valid
        { ID := "s1", Date := "2024-01-01", Start := 0, LastHeartbeat := 300,
          TotalSeconds := 300, Intervals := [{ Start := 0, End := some 300 }] })).TotalSeconds
        = 300 :=
  ⟨by decide, by decide, updateSession_gap_appends "s1" "2024-01-01" 1200
    { ID := "s1", Date := "2024-01-01", Start := 0, LastHeartbeat := 300,
      TotalSeconds := 300, Intervals := [{ Start := 0, End := some 300 }] }
    (by decide) (by decide)⟩

/-! ## Invariants of the stored record -/

theorem setLastEnd_closed (l : List Interval) (t : Int) :
    (∀ iv ∈ l, iv.End.isSome = true) → ∀ iv ∈ setLastEnd l t, iv.End.isSome = true := by
  induction l with
  | nil => intro _ iv hiv; simp [setLastEnd] at hiv
  | cons x rest ih =>
    cases rest with
    | nil =>
      intro _ iv hiv
      simp only [setLastEnd, List.mem_singleton] at hiv
      rw [hiv]; rfl
    | cons y rest2 =>
      intro h iv hiv
      simp only [setLastEnd, List.mem_cons] at hiv
      rcases hiv with hiv | hiv
      · rw [hiv]; exact h x (by simp)
      · exact ih (fun j hj => h j (List.mem_cons_of_mem _ hj)) iv (by simpa [List.mem_cons] using hiv)

theorem closed_updateSessions (sid : String) (ticks : List Tick) :
    ∀ s : Session, (∀ iv ∈ s.Intervals, iv.End.isSome = true) →
      ∀ iv ∈ (updateSessions sid s ticks).Intervals, iv.End.isSome = true := by
  induction ticks with
  | nil => intro s h; simpa [updateSessions] using h
  | cons t rest ih =>
    intro s h
    rw [updateSessions_cons]
    apply ih
    by_cases hgap : sub64 t.unix s.LastHeartbeat < 600
    · rw [updateSession_valid_lt sid t.today t.unix s hgap]
      exact setLastEnd_closed s.Intervals t.unix h
    · rw [updateSession_valid_ge sid t.today t.unix s (by omega)]
      intro iv hiv
      simp only [List.mem_append, List.mem_singleton] at hiv
      rcases hiv with hiv | hiv
      · exact h iv hiv
      · rw [hiv]; rfl

theorem closed_fromAbsent (sid : String) (tick : Tick) (ticks : List Tick) :
    ∀ iv ∈ (fromAbsent sid tick ticks).Intervals, iv.End.isSome = true := by
  unfold fromAbsent
  apply closed_updateSessions
  rw [updateSession_unreadable]
  intro iv hiv
  simp only [List.mem_singleton] at hiv
  rw [hiv]; rfl

/-- C6: in every record reached from an absent session file by calls of
`updateSession`, at most one interval has an absent `End`, and every interval
other than the last element of `Intervals` has a present `End`. -/
theorem fromAbsent_open_only_last (sid : String) (tick : Tick) (ticks : List Tick) :
    (fromAbsent sid tick ticks).Intervals.countP (fun iv => iv.End.isNone) ≤ 1 ∧
      (fromAbsent sid tick ticks).Intervals.dropLast.all (fun iv => iv.End.isSome) = true := by
  have h := closed_fromAbsent sid tick ticks
  constructor
  · have : (fromAbsent sid tick ticks).Intervals.countP (fun iv => iv.End.isNone) = 0 := by
      rw [List.countP_eq_zero]
      intro iv hiv
      have := h iv hiv
      cases hE : iv.End <;> simp_all
    omega
  · rw [List.all_eq_true]
    intro iv hiv
    exact h iv (List.mem_of_mem_dropLast hiv)

theorem ordered_updateSessions (sid : String) (ticks : List Tick) :
    ∀ (s : Session) (tk : Tick), s.LastHeartbeat = tk.unix →
      (∃ init a, s.Intervals = init ++ [{ Start := a, End := some s.LastHeartbeat }] ∧
        a ≤ s.LastHeartbeat) →
      List.Chain' precedes s.Intervals →
      List.Chain (fun x y : Tick => x.unix ≤ y.unix) tk ticks →
      List.Chain' precedes (updateSessions sid s ticks).Intervals := by
  induction ticks with
  | nil => intro s tk _ _ h _; simpa [updateSessions] using h
  | cons t rest ih =>
    intro s tk hl hs hch hc
    obtain ⟨init, a, hs, ha⟩ := hs
    rw [List.chain_cons] at hc
    obtain ⟨hle, hrest⟩ := hc
    rw [updateSessions_cons]
    by_cases hgap : sub64 t.unix s.LastHeartbeat < 600
    · rw [updateSession_valid_lt sid t.today t.unix s hgap]
      refine ih _ t rfl ⟨init, a, by simp [hs, setLastEnd_append_one], by simp; omega⟩ ?_ hrest
      simp only [hs, setLastEnd_append_one]
      rw [hs, List.chain'_append] at hch
      rw [List.chain'_append]
      obtain ⟨h1, _, h3⟩ := hch
      refine ⟨h1, List.chain'_singleton _, fun x hx y hy => ?_⟩
      simp only [List.head?_cons, Option.mem_def, Option.some.injEq] at hy
      subst hy
      exact h3 x hx { Start := a, End := some s.LastHeartbeat } (by simp)
    · have h' : 600 ≤ sub64 t.unix s.LastHeartbeat := by omega
      have hlt : s.LastHeartbeat + 600 ≤ t.unix := by
        rw [hl] at h' ⊢
        unfold sub64 wrap64 at h'
        omega
      rw [updateSession_valid_ge sid t.today t.unix s h']
      refine ih _ t rfl ⟨s.Intervals, t.unix, by simp, by simp⟩ ?_ hrest
      simp only
      rw [List.chain'_append]
      refine ⟨hch, List.chain'_singleton _, fun x hx y hy => ?_⟩
      simp only [List.head?_cons, Option.mem_def, Option.some.injEq] at hy
      subst hy
      rw [hs] at hx
      simp only [List.getLast?_concat, Option.mem_def, Option.some.injEq] at hx
      subst hx
      refine ⟨by simp only; omega, fun e he => ?_⟩
      simp only [Option.some.injEq] at he
      simp only; omega

/-- C7: in every record reached from an absent session file by calls of
`updateSession` at non-decreasing times, each interval starts strictly after
the start of the previous interval and not before its end, so the intervals
are in strictly ascending order of `Start`. -/
theorem fromAbsent_intervals_ordered (sid : String) (tick : Tick) (ticks : List Tick)
    (h : List.Chain (fun x y : Tick => x.unix ≤ y.unix) tick ticks) :
    List.Chain' precedes (fromAbsent sid tick ticks).Intervals ∧
      List.Pairwise (fun a b : Interval => a.Start < b.Start)
        (fromAbsent sid tick ticks).Intervals := by
  have hch : List.Chain' precedes (fromAbsent sid tick ticks).Intervals := by
    unfold fromAbsent
    have h0 := updateSession_unreadable sid tick.today tick.unix
    refine ordered_updateSessions sid ticks _ tick (by rw [h0]) ⟨[], tick.unix, ?_, ?_⟩ ?_ h
    · rw [h0]; rfl
    · rw [h0]
    · rw [h0]; exact List.chain'_singleton _
  refine ⟨hch, ?_⟩
  have hstart : List.Chain' (fun a b : Interval => a.Start < b.Start)
      (fromAbsent sid tick ticks).Intervals := hch.imp (fun _ _ hab => hab.1)
  haveI : IsTrans Interval (fun a b : Interval => a.Start < b.Start) :=
    ⟨fun _ _ _ hab hbc => lt_trans hab hbc⟩
  exact List.chain'_iff_pairwise.mp hstart

/-- C7, on heartbeats at 0, 300, 1200, 1300 and 2000: three intervals. -/
theorem fromAbsent_intervals_ordered_witness :
    List.Chain (fun x y : Tick => x.unix ≤ y.unix) { today := "2024-01-01", unix := 0 }
        [{ today := "2024-01-01", unix := 300 }, { today := "2024-01-01", unix := 1200 },
          { today := "2024-01-01", unix := 1300 }, { today := "2024-01-01", unix := 2000 }] ∧
      List.Chain' precedes
        [{ Start := 0, End := some 300 }, { Start := 1200, End := some 1300 },
          { Start := 2000, End := some 2000 }] :=
  have hc : List.Chain (fun x y : Tick => x.unix ≤ y.unix) { today := "2024-01-01", unix := 0 }
      [{ today := "2024-01-01", unix := 300 }, { today := "2024-01-01", unix := 1200 },
        { today := "2024-01-01", unix := 1300 }, { today := "2024-01-01", unix := 2000 }] :=
    List.Chain.cons (by decide) (List.Chain.cons (by decide)
      (List.Chain.cons (by decide) (List.Chain.cons (by decide) List.Chain.nil)))
  ⟨hc, (fromAbsent_intervals_ordered "s1" { today := "2024-01-01", unix := 0 }
    [{ today := "2024-01-01", unix := 300 }, { today := "2024-01-01", unix := 1200 },
      { today := "2024-01-01", unix := 1300 }, { today := "2024-01-01", unix := 2000 }] hc).1⟩

theorem frame_updateSessions (sid : String) (ticks : List Tick) :
    ∀ s : Session, (updateSessions sid s ticks).ID = s.ID ∧
      (updateSessions sid s ticks).Date = s.Date ∧
      (updateSessions sid s ticks).Start = s.Start := by
  induction ticks with
  | nil => intro s; simp [updateSessions]
  | cons t rest ih =>
    intro s
    rw [updateSessions_cons]
    obtain ⟨h1, h2, h3⟩ := ih (updateSession sid t.today t.unix (.valid s))
    rw [h1, h2, h3]
    by_cases hgap : sub64 t.unix s.LastHeartbeat < 600
    · rw [updateSession_valid_lt sid t.today t.unix s hgap]; exact ⟨rfl, rfl, rfl⟩
    · rw [updateSession_valid_ge sid t.today t.unix s (by omega)]; exact ⟨rfl, rfl, rfl⟩

/-- C8: on an absent session file `updateSession` creates a record with the
given id, today's date and `Start = LastHeartbeat = now`; on a stored record
it keeps `ID`, `Date` and `Start` and sets `LastHeartbeat` to `now`; so after
any further heartbeats the record still has the id, the date and the time of
the first heartbeat. -/
theorem updateSession_frame (sid d : String) (t : Int) :
    ((updateSession sid d t .unreadable).ID = sid ∧
        (updateSession sid d t .unreadable).Date = d ∧
        (updateSession sid d t .unreadable).Start = t ∧
        (updateSession sid d t .unreadable).LastHeartbeat = t) ∧
      (∀ (sid2 d2 : String) (s : Session),
        (updateSession sid2 d2 t (.valid s)).ID = s.ID ∧
          (updateSession sid2 d2 t (.valid s)).Date = s.Date ∧
          (updateSession sid2 d2 t (.valid s)).Start = s.Start ∧
          (updateSession sid2 d2 t (.valid s)).LastHeartbeat = t) ∧
      ∀ ticks : List Tick,
        (fromAbsent sid { today := d, unix := t } ticks).ID = sid ∧
          (fromAbsent sid { today := d, unix := t } ticks).Date = d ∧
          (fromAbsent sid { today := d, unix := t } ticks).Start = t := by
  refine ⟨by rw [updateSession_unreadable]; exact ⟨rfl, rfl, rfl, rfl⟩, fun sid2 d2 s => ?_,
    fun ticks => ?_⟩
  · by_cases hgap : sub64 t s.LastHeartbeat < 600
    · rw [updateSession_valid_lt sid2 d2 t s hgap]; exact ⟨rfl, rfl, rfl, rfl⟩
    · rw [updateSession_valid_ge sid2 d2 t s (by omega)]; exact ⟨rfl, rfl, rfl, rfl⟩
  · obtain ⟨h1, h2, h3⟩ := frame_updateSessions sid ticks
      (updateSession sid d t .unreadable)
    unfold fromAbsent
    rw [h1, h2, h3, updateSession_unreadable]
    exact ⟨rfl, rfl, rfl⟩

/-! ## The aggregate of today -/

theorem scanEntry_eq (today : String) (now : Int) (acc : Int × Nat) (e : String × FileData) :
    scanEntry today now acc e =
      match storedRecord e with
      | none => acc
      | some s =>
        if s.Date = today then
          (add64 acc.1 s.TotalSeconds,
            if sub64 now s.LastHeartbeat < 600 then acc.2 + 1 else acc.2)
        else acc := by
  obtain ⟨name, file⟩ := e
  unfold scanEntry storedRecord
  cases hs : hasSuffix name ".json" <;> cases file <;> simp
  split <;> (try split) <;> rfl

theorem foldl_scanEntry (today : String) (now : Int) (entries : List (String × FileData)) :
    ∀ acc : Int × Nat,
      wrap64 (entries.foldl (scanEntry today now) acc).1
          = wrap64 (acc.1 + (todaysTotals today entries).sum) ∧
        (isInt64 acc.1 → isInt64 (entries.foldl (scanEntry today now) acc).1) ∧
        (entries.foldl (scanEntry today now) acc).2 = acc.2 + activeToday today now entries := by
  induction entries with
  | nil => intro acc; simp [todaysTotals, storedRecords, activeToday]
  | cons e rest ih =>
    intro acc
    rw [List.foldl_cons]
    obtain ⟨h1, h2, h3⟩ := ih (scanEntry today now acc e)
    rw [h1, h3]
    rw [scanEntry_eq] at h2 ⊢
    cases hrec : storedRecord e with
    | none =>
      simp only [hrec] at h2 ⊢
      exact ⟨by simp [todaysTotals, storedRecords, List.filterMap_cons, hrec], h2,
        by simp [storedRecords, activeToday, List.filterMap_cons, hrec]⟩
    | some s =>
      simp only [hrec] at h2 ⊢
      by_cases hd : s.Date = today
      · simp only [hd, if_true] at h2 ⊢
        refine ⟨?_, fun _ => h2 (wrap64_isInt64 _), ?_⟩
        · simp only [todaysTotals, storedRecords, List.filterMap_cons, hrec, List.filter_cons, hd,
            decide_True, if_true, List.map_cons, List.sum_cons, add64]
          unfold wrap64; omega
        · by_cases hg : sub64 now s.LastHeartbeat < 600
          · simp [activeToday, storedRecords, List.filterMap_cons, hrec, hd, hg]
            omega
          · simp [activeToday, storedRecords, List.filterMap_cons, hrec, hd, hg]
      · simp only [hd, if_false] at h2 ⊢
        exact ⟨by simp [todaysTotals, storedRecords, List.filterMap_cons, hrec, hd], h2,
          by simp [storedRecords, activeToday, List.filterMap_cons, hrec, hd]⟩

/-- C9: the total accumulated by the loop of `calculateTotalHours` is the
`int64` sum of `TotalSeconds` over the stored records dated today (the sum in
the integers whenever that sum is an `int64`); an entry that cannot be read,
that does not decode, or whose record is dated another day leaves the
accumulated pair unchanged, whatever its content. -/
theorem aggregateToday_total (today : String) (now : Int)
    (entries : List (String × FileData)) :
    (aggregateToday today now entries).1 = wrap64 (todaysTotals today entries).sum ∧
      (isInt64 (todaysTotals today entries).sum →
        (aggregateToday today now entries).1 = (todaysTotals today entries).sum) ∧
      (∀ (acc : Int × Nat) (name : String) (file : FileData),
        (file = .unreadable ∨ (∃ residue, file = .malformed residue) ∨
            ∃ s, file = .valid s ∧ s.Date ≠ today) →
          scanEntry today now acc (name, file) = acc) := by
  obtain ⟨h1, h2, _⟩ := foldl_scanEntry today now entries (0, 0)
  have hr : isInt64 (aggregateToday today now entries).1 := h2 (by unfold isInt64; simp)
  have key : (aggregateToday today now entries).1 = wrap64 (todaysTotals today entries).sum := by
    have := wrap64_of_isInt64 hr
    unfold aggregateToday at this ⊢
    rw [← this, h1]; simp
  refine ⟨key, fun hs => by rw [key]; exact wrap64_of_isInt64 hs, ?_⟩
  intro acc name file hfile
  rcases hfile with h | ⟨r, h⟩ | ⟨s, h, hd⟩
  · subst h; simp [scanEntry]
  · subst h; simp [scanEntry]
  · subst h; simp [scanEntry, hd]

/-- C9, on the scenario of the specification: two records dated today with
totals 1800 and 600, next to a record of another day, an unreadable file and
a file that does not decode. -/
theorem aggregateToday_total_witness :
    isInt64 (todaysTotals "2024-01-02"
        [("a.json", .valid ⟨"a", "2024-01-02", 0, 1800, 1800, [⟨0, some 1800⟩]⟩),
          ("b.json", .valid ⟨"b", "2024-01-01", 0, 90, 90, [⟨0, some 90⟩]⟩),
          ("c.json", .unreadable), ("d.json", .malformed zeroSession),
          ("e.json", .valid ⟨"e", "2024-01-02", 5000, 5600, 600, [⟨5000, some 5600⟩]⟩)]).sum ∧
      (aggregateToday "2024-01-02" 5700
        [("a.json", .valid ⟨"a", "2024-01-02", 0, 1800, 1800, [⟨0, some 1800⟩]⟩),
          ("b.json", .valid ⟨"b", "2024-01-01", 0, 90, 90, [⟨0, some 90⟩]⟩),
          ("c.json", .unreadable), ("d.json", .malformed zeroSession),
          ("e.json", .valid ⟨"e", "2024-01-02", 5000, 5600, 600, [⟨5000, some 5600⟩]⟩)]).1
        = 2400 ∧
      scanEntry "2024-01-02" 5700 (1800, 1)
        ("b.json", .valid ⟨"b", "2024-01-01", 0, 90, 90, [⟨0, some 90⟩]⟩) = (1800, 1) :=
  ⟨by decide, (aggregateToday_total "2024-01-02" 5700 _).2.1 (by decide),
    (aggregateToday_total "2024-01-02" 5700 []).2.2 (1800, 1) "b.json" _
      (Or.inr (Or.inr ⟨_, rfl, by decide⟩))⟩

/-- C10 as stated fails: a session first seen on 2024-01-01 at 23:58 and
still sending heartbeats at 00:01 the next day keeps its date, and ten
seconds after its last heartbeat it is not counted as active. -/
theorem active_count_ignores_other_days :
    (aggregateToday "2024-01-02" 1704153670
        [("s1.json", .valid (fromAbsent "s1" { today := "2024-01-01", unix := 1704153480 }
          [{ today := "2024-01-02", unix := 1704153660 }]))]).2 = 0 ∧
      activeByHeartbeat 1704153670
        [("s1.json", .valid (fromAbsent "s1" { today := "2024-01-01", unix := 1704153480 }
          [{ today := "2024-01-02", unix := 1704153660 }]))] = 1 := by
  decide

/-- C10, amended: the loop of `calculateTotalHours` counts a stored record as
active exactly when its date is today's date and `now - last_heartbeat < 600`,
so the active count is the number of stored records dated today with
`now - last_heartbeat < 600`; a record with `now - last_heartbeat` exactly 600
is not counted. -/
theorem aggregateToday_activeCount (today : String) (now : Int)
    (entries : List (String × FileData)) :
    (aggregateToday today now entries).2 = activeToday today now entries ∧
      (∀ (name : String) (s : Session),
        (aggregateToday today now [(name, .valid s)]).2 = 1 ↔
          (hasSuffix name ".json" = true ∧ s.Date = today ∧
            sub64 now s.LastHeartbeat < 600)) ∧
      (∀ (acc : Int × Nat) (name : String) (s : Session),
        sub64 now s.LastHeartbeat = 600 → (scanEntry today now acc (name, .valid s)).2 = acc.2) := by
  refine ⟨?_, ?_, ?_⟩
  · have := (foldl_scanEntry today now entries (0, 0)).2.2
    simpa [aggregateToday] using this
  · intro name s
    simp only [aggregateToday, List.foldl_cons, List.foldl_nil, scanEntry]
    cases hs : hasSuffix name ".json" <;> by_cases hd : s.Date = today <;>
      by_cases hg : sub64 now s.LastHeartbeat < 600 <;> simp [hs, hd, hg]
  · intro acc name s h
    simp only [scanEntry]
    cases hs : hasSuffix name ".json" <;> by_cases hd : s.Date = today <;> simp [hs, hd, h]

/-- C10 amended, on a record dated today whose last heartbeat is exactly 600
seconds old, next to a record dated today that is active. -/
theorem aggregateToday_activeCount_witness :
    sub64 1200 600 = 600 ∧
      (scanEntry "2024-01-02" 1200 (0, 1)
        ("a.json", .valid ⟨"a", "2024-01-02", 0, 600, 600, [⟨0, some 600⟩]⟩)).2 = 1 :=
  ⟨by decide, (aggregateToday_activeCount "2024-01-02" 1200 []).2.2 (0, 1) "a.json"
    ⟨"a", "2024-01-02", 0, 600, 600, [⟨0, some 600⟩]⟩ (by decide)⟩

/-! ## Rounding to `float64` -/

theorem roundHalfEven_intCast (n : Int) : roundHalfEven (n : ℚ) = n := by
  simp [roundHalfEven]

theorem roundHalfEven_sub_le (x : ℚ) :
    |(roundHalfEven x : ℚ) - x| ≤ 1 / 2 := by
  have h1 : (⌊x⌋ : ℚ) ≤ x := Int.floor_le x
  have h2 : x < ⌊x⌋ + 1 := Int.lt_floor_add_one x
  unfold roundHalfEven
  simp only
  split_ifs with ha hb hc
  · rw [abs_le]; constructor <;> linarith
  · rw [abs_le]; push_cast; constructor <;> linarith
  · rw [abs_le]; constructor <;> linarith
  · rw [abs_le]; push_cast; constructor <;> linarith

theorem roundHalfEven_le (x : ℚ) (n : Int) (h : x ≤ n) : roundHalfEven x ≤ n := by
  have h1 : (⌊x⌋ : ℚ) ≤ x := Int.floor_le x
  have hf : ⌊x⌋ ≤ n := by exact_mod_cast le_trans h1 h
  have hlt : x - ⌊x⌋ ≠ 0 → ⌊x⌋ + 1 ≤ n := by
    intro hne
    have : (⌊x⌋ : ℚ) < n := by
      rcases lt_or_eq_of_le h1 with h3 | h3
      · linarith
      · exact absurd (by linarith) hne
    have : ⌊x⌋ < n := by exact_mod_cast this
    omega
  unfold roundHalfEven
  simp only
  split_ifs with ha hb hc
  · exact hf
  · exact hlt (by linarith)
  · exact hf
  · exact hlt (by linarith)

theorem roundHalfEven_nonneg (x : ℚ) (h : 0 ≤ x) : 0 ≤ roundHalfEven x := by
  have hf : 0 ≤ ⌊x⌋ := Int.floor_nonneg.mpr h
  unfold roundHalfEven
  simp only
  split_ifs <;> omega


theorem two_zpow_pos (z : ℤ) : (0 : ℚ) < (2 : ℚ) ^ z := zpow_pos (by norm_num) z

theorem roundMagnitude_of_int_quotient (a : ℚ) (z : ℤ)
    (h : a / (2 : ℚ) ^ (max (Int.log 2 a - 52) (-1074)) = (z : ℚ)) :
    roundMagnitude a = a := by
  unfold roundMagnitude
  simp only
  rw [h, roundHalfEven_intCast, ← h]
  exact div_mul_cancel₀ a (ne_of_gt (two_zpow_pos _))

theorem dyadic_div (m : ℕ) (k e : ℤ) (h : e ≤ k) :
    (m : ℚ) * (2 : ℚ) ^ k / (2 : ℚ) ^ e = ((m * 2 ^ (k - e).toNat : ℕ) : ℤ) := by
  have hk : k = e + ((k - e).toNat : ℤ) := by
    rw [Int.toNat_of_nonneg (by omega)]; omega
  have h2 : (2 : ℚ) ^ k = (2 : ℚ) ^ e * (2 : ℚ) ^ (k - e).toNat := by
    conv_lhs => rw [hk]
    rw [zpow_add₀ (by norm_num), zpow_natCast]
  rw [h2]
  push_cast
  field_simp
  ring

theorem log_dyadic_lt (m : ℕ) (k : ℤ) (hm0 : 0 < m) (hm : m < 2 ^ 53) :
    Int.log 2 ((m : ℚ) * (2 : ℚ) ^ k) < 53 + k := by
  have ha : (0 : ℚ) < (m : ℚ) * (2 : ℚ) ^ k :=
    mul_pos (by exact_mod_cast hm0) (two_zpow_pos k)
  rw [← Int.lt_zpow_iff_log_lt (by norm_num) ha]
  have h1 : (m : ℚ) < (2 : ℚ) ^ (53 : ℕ) := by exact_mod_cast hm
  have h2 : ((2 : ℕ) : ℚ) ^ (53 + k) = (2 : ℚ) ^ (53 : ℕ) * (2 : ℚ) ^ k := by
    rw [Nat.cast_ofNat, zpow_add₀ (by norm_num)]
    norm_num
  rw [h2]
  exact mul_lt_mul_of_pos_right h1 (two_zpow_pos k)

theorem roundMagnitude_dyadic (m : ℕ) (k : ℤ) (hm0 : 0 < m) (hm : m ≤ 2 ^ 53)
    (hk : -1074 ≤ k) :
    roundMagnitude ((m : ℚ) * (2 : ℚ) ^ k) = (m : ℚ) * (2 : ℚ) ^ k := by
  rcases Nat.lt_or_ge m (2 ^ 53) with hlt | hge
  · have hl := log_dyadic_lt m k hm0 hlt
    have he : max (Int.log 2 ((m : ℚ) * (2 : ℚ) ^ k) - 52) (-1074) ≤ k := by omega
    exact roundMagnitude_of_int_quotient _ _ (dyadic_div m k _ he)
  · have hm' : m = 2 ^ 53 := le_antisymm hm hge
    have ha : (m : ℚ) * (2 : ℚ) ^ k = ((2 : ℕ) : ℚ) ^ (53 + k) := by
      rw [hm', Nat.cast_ofNat, zpow_add₀ (by norm_num)]
      norm_num
    have hl : Int.log 2 ((m : ℚ) * (2 : ℚ) ^ k) = 53 + k := by
      rw [ha, Int.log_zpow (by norm_num)]
    have he : max (Int.log 2 ((m : ℚ) * (2 : ℚ) ^ k) - 52) (-1074) = k + 1 := by
      rw [hl]; omega
    apply roundMagnitude_of_int_quotient _ ((2 : ℤ) ^ 52)
    rw [he, ha, Nat.cast_ofNat, ← zpow_sub₀ (by norm_num)]
    have : 53 + k - (k + 1) = ((52 : ℕ) : ℤ) := by omega
    rw [this, zpow_natCast]
    norm_num


theorem roundMagnitude_zero : roundMagnitude 0 = 0 := by
  simp [roundMagnitude, roundHalfEven]

theorem roundMagnitude_nonneg (a : ℚ) (ha : 0 ≤ a) : 0 ≤ roundMagnitude a := by
  unfold roundMagnitude
  simp only
  apply mul_nonneg
  · exact_mod_cast roundHalfEven_nonneg _ (div_nonneg ha (le_of_lt (two_zpow_pos _)))
  · exact le_of_lt (two_zpow_pos _)

theorem roundMagnitude_image (a : ℚ) (ha : 0 < a) :
    ∃ m : ℕ, m ≤ 2 ^ 53 ∧
      roundMagnitude a = (m : ℚ) * (2 : ℚ) ^ (max (Int.log 2 a - 52) (-1074)) := by
  have hq : 0 ≤ a / (2 : ℚ) ^ (max (Int.log 2 a - 52) (-1074)) :=
    div_nonneg (le_of_lt ha) (le_of_lt (two_zpow_pos _))
  have hn := roundHalfEven_nonneg _ hq
  have hlt : a < ((2 : ℕ) : ℚ) ^ (Int.log 2 a + 1) := Int.lt_zpow_succ_log_self (by norm_num) a
  rw [Nat.cast_ofNat] at hlt
  have hle : a / (2 : ℚ) ^ (max (Int.log 2 a - 52) (-1074)) ≤ ((2 ^ 53 : ℤ) : ℚ) := by
    rw [div_le_iff₀ (two_zpow_pos _)]
    have h1 : (2 : ℚ) ^ (Int.log 2 a + 1)
        ≤ (2 : ℚ) ^ ((53 : ℤ) + max (Int.log 2 a - 52) (-1074)) :=
      zpow_le_zpow_right₀ (by norm_num) (by omega)
    have h3 : (2 : ℚ) ^ ((53 : ℤ) + max (Int.log 2 a - 52) (-1074))
        = (2 : ℚ) ^ (53 : ℤ) * (2 : ℚ) ^ (max (Int.log 2 a - 52) (-1074)) :=
      zpow_add₀ (by norm_num) _ _
    have h2 : ((2 ^ 53 : ℤ) : ℚ) = (2 : ℚ) ^ (53 : ℤ) := by norm_num
    rw [h2]
    linarith
  have hm := roundHalfEven_le _ _ hle
  refine ⟨(roundHalfEven (a / (2 : ℚ) ^ (max (Int.log 2 a - 52) (-1074)))).toNat, ?_, ?_⟩
  · omega
  · unfold roundMagnitude
    simp only
    congr 1
    have : ((roundHalfEven (a / (2 : ℚ) ^ (max (Int.log 2 a - 52) (-1074)))).toNat : ℤ)
        = roundHalfEven (a / (2 : ℚ) ^ (max (Int.log 2 a - 52) (-1074))) :=
      Int.toNat_of_nonneg hn
    exact_mod_cast this.symm

theorem roundMagnitude_idem (a : ℚ) (ha : 0 < a) :
    roundMagnitude (roundMagnitude a) = roundMagnitude a := by
  obtain ⟨m, hm, h⟩ := roundMagnitude_image a ha
  rw [h]
  rcases Nat.eq_zero_or_pos m with h0 | h0
  · rw [h0]; simp [roundMagnitude_zero]
  · exact roundMagnitude_dyadic m _ h0 hm (le_max_right _ _)

theorem round64_zero : round64 0 = .finite 0 := by
  simp [round64]

theorem round64_rounded (q : ℚ) : (round64 q).Rounded := by
  unfold round64
  split
  · exact round64_zero
  · rename_i hq
    have habs : 0 < |q| := abs_pos.mpr hq
    have hnn := roundMagnitude_nonneg |q| (le_of_lt habs)
    simp only
    split
    · trivial
    · rename_i hfin
      show round64 _ = _
      rcases eq_or_lt_of_le hnn with h0 | hpos
      · rw [← h0]; simp [round64_zero]
      · by_cases hneg : q < 0
        · simp only [hneg, if_true]
          have hne : -roundMagnitude |q| ≠ 0 := by linarith
          have hlt : -roundMagnitude |q| < 0 := by linarith
          unfold round64
          rw [if_neg hne]
          simp only [abs_neg, abs_of_pos hpos, roundMagnitude_idem _ habs, hfin, if_false, hlt,
            if_true]
        · simp only [hneg, if_false]
          have hne : roundMagnitude |q| ≠ 0 := ne_of_gt hpos
          have hlt : ¬ roundMagnitude |q| < 0 := by linarith
          unfold round64
          rw [if_neg hne]
          simp only [abs_of_pos hpos, roundMagnitude_idem _ habs, hfin, if_false, hlt]

theorem F64.add_rounded (x y : F64) : (F64.add x y).Rounded := by
  cases x <;> cases y <;> simp only [F64.add] <;> try trivial
  · exact round64_rounded _
  · split <;> trivial

theorem F64.add_zero (x : F64) (h : x.Rounded) : F64.add x (.finite 0) = x := by
  cases x with
  | finite r => simpa [F64.add] using h
  | inf s => rfl
  | nan => rfl

theorem F64.zero_add_zero : F64.add (.finite 0) (.finite 0) = .finite 0 := by
  simp [F64.add, round64_zero]

theorem round64_natCast (n : ℕ) (h : n ≤ 2 ^ 53) : round64 (n : ℚ) = .finite (n : ℚ) := by
  rcases Nat.eq_zero_or_pos n with h0 | h0
  · rw [h0]; simp [round64_zero]
  · have hpos : (0 : ℚ) < n := by exact_mod_cast h0
    have hm := roundMagnitude_dyadic n 0 h0 h (by norm_num)
    simp only [zpow_zero, mul_one] at hm
    have hlt : ¬ (2 : ℚ) ^ (1024 : ℕ) ≤ (n : ℚ) := by
      have h1 : (n : ℚ) ≤ (2 : ℚ) ^ (53 : ℕ) := by exact_mod_cast h
      have h2 : (2 : ℚ) ^ (53 : ℕ) < (2 : ℚ) ^ (1024 : ℕ) := by norm_num
      linarith
    unfold round64
    rw [if_neg (ne_of_gt hpos)]
    simp only [abs_of_pos hpos, hm, hlt, if_false, not_lt.mpr (le_of_lt hpos)]

theorem round64_dyadic (m : ℕ) (k : ℤ) (hm0 : 0 < m) (hm : m ≤ 2 ^ 53) (hk : -1074 ≤ k)
    (hlt : (m : ℚ) * (2 : ℚ) ^ k < (2 : ℚ) ^ (1024 : ℕ)) :
    round64 ((m : ℚ) * (2 : ℚ) ^ k) = .finite ((m : ℚ) * (2 : ℚ) ^ k) := by
  have hpos : (0 : ℚ) < (m : ℚ) * (2 : ℚ) ^ k :=
    mul_pos (by exact_mod_cast hm0) (two_zpow_pos k)
  have hr := roundMagnitude_dyadic m k hm0 hm hk
  unfold round64
  rw [if_neg (ne_of_gt hpos)]
  simp only [abs_of_pos hpos, hr, not_le.mpr hlt, if_false, not_lt.mpr (le_of_lt hpos)]

theorem round64_neg (q r : ℚ) (hq : 0 < q) (h : round64 q = .finite r) :
    round64 (-q) = .finite (-r) := by
  have hne : ¬ q = 0 := ne_of_gt hq
  have hne2 : ¬ -q = 0 := by linarith
  have hneg : -q < 0 := by linarith
  have hnn : ¬ q < 0 := by linarith
  unfold round64 at h ⊢
  rw [if_neg hne] at h
  rw [if_neg hne2]
  simp only [abs_neg, abs_of_pos hq] at h ⊢
  by_cases hov : (2 : ℚ) ^ (1024 : ℕ) ≤ roundMagnitude q
  · simp only [hov, if_true] at h
    exact F64.noConfusion h
  · simp only [hov, if_false, hnn, hneg, if_true] at h ⊢
    rw [F64.finite.inj h]

theorem round64_intCast (n : Int) (h1 : -9007199254740992 ≤ n) (h2 : n ≤ 9007199254740992) :
    round64 (n : ℚ) = .finite (n : ℚ) := by
  rcases le_or_lt 0 n with h0 | h0
  · have hn : n = (n.toNat : Int) := (Int.toNat_of_nonneg h0).symm
    have h := round64_natCast n.toNat (by omega)
    rw [hn]
    exact_mod_cast h
  · have hn : n = -((-n).toNat : Int) := by
      rw [Int.toNat_of_nonneg (by omega)]; omega
    have hpos : (0 : ℚ) < (((-n).toNat : ℕ) : ℚ) := by
      have : 0 < (-n).toNat := by omega
      exact_mod_cast this
    have h := round64_neg _ _ hpos (round64_natCast (-n).toNat (by omega))
    rw [hn]
    push_cast
    exact h

theorem log_of_bounds (a : ℚ) (ha : 0 < a) (l : ℤ) (h1 : (2 : ℚ) ^ l ≤ a)
    (h2 : a < (2 : ℚ) ^ (l + 1)) : Int.log 2 a = l := by
  have hle : l ≤ Int.log 2 a := by
    rw [← Int.zpow_le_iff_le_log (by norm_num) ha]
    exact_mod_cast h1
  have hlt : Int.log 2 a < l + 1 := by
    rw [← Int.lt_zpow_iff_log_lt (by norm_num) ha]
    exact_mod_cast h2
  omega

theorem roundHalfEven_tie_even (f : Int) (hf : f % 2 = 0) :
    roundHalfEven ((f : ℚ) + 1 / 2) = f := by
  have hfl : ⌊(f : ℚ) + 1 / 2⌋ = f := by
    rw [Int.floor_eq_iff]
    constructor <;> linarith
  unfold roundHalfEven
  simp only [hfl]
  have h1 : ¬ ((f : ℚ) + 1 / 2 - f < 1 / 2) := by
    have : (f : ℚ) + 1 / 2 - f = 1 / 2 := by ring
    rw [this]; exact lt_irrefl _
  have h2 : ¬ ((1 : ℚ) / 2 < (f : ℚ) + 1 / 2 - f) := by
    have : (f : ℚ) + 1 / 2 - f = 1 / 2 := by ring
    rw [this]; exact lt_irrefl _
  rw [if_neg h1, if_neg h2, if_pos hf]

theorem round64_tie (x : ℚ) (hx : x = 9007199254740993) :
    round64 x = .finite 9007199254740992 := by
  have hpos : (0 : ℚ) < x := by rw [hx]; norm_num
  have hlog : Int.log 2 x = 53 := by
    apply log_of_bounds x hpos 53
    · rw [hx]; norm_num
    · rw [hx]; norm_num
  have hq : x / (2 : ℚ) ^ (1 : ℤ) = ((4503599627370496 : Int) : ℚ) + 1 / 2 := by
    rw [hx]; norm_num
  have hr : roundMagnitude x = 9007199254740992 := by
    unfold roundMagnitude
    simp only [hlog]
    have he : max ((53 : ℤ) - 52) (-1074) = 1 := by decide
    rw [he, hq, roundHalfEven_tie_even _ (by decide)]
    norm_num
  unfold round64
  rw [if_neg (ne_of_gt hpos)]
  simp only [abs_of_pos hpos, hr, not_lt.mpr (le_of_lt hpos), if_false]
  rw [if_neg (by norm_num)]

theorem round64_overflowing :
    round64 10000000000000000000 = .finite 10000000000000000000 := by
  have h := round64_dyadic 19073486328125 19 (by norm_num) (by norm_num) (by norm_num)
    (by norm_num)
  have hv : ((19073486328125 : ℕ) : ℚ) * (2 : ℚ) ^ (19 : ℤ) = 10000000000000000000 := by
    norm_num
  rw [hv] at h
  exact h

theorem round64_half : round64 (1 / 2) = .finite (1 / 2) := by
  have h := round64_dyadic 1 (-1) (by norm_num) (by norm_num) (by norm_num) (by norm_num)
  have hv : ((1 : ℕ) : ℚ) * (2 : ℚ) ^ (-1 : ℤ) = 1 / 2 := by norm_num
  rw [hv] at h
  exact h


theorem round64_near (q : ℚ) (hlo : 1 / 2 ^ 20 ≤ q) (hhi : q ≤ 2 ^ 70) :
    ∃ r : ℚ, round64 q = .finite r ∧ |r - q| ≤ q / 2 ^ 53 := by
  have hq : 0 < q := lt_of_lt_of_le (by norm_num) hlo
  have hlog : (-20 : ℤ) ≤ Int.log 2 q := by
    rw [← Int.zpow_le_iff_le_log (by norm_num) hq]
    have : (((2 : ℕ) : ℚ)) ^ (-20 : ℤ) = 1 / 2 ^ 20 := by norm_num
    rw [this]
    exact hlo
  have he : max (Int.log 2 q - 52) (-1074) = Int.log 2 q - 52 := by omega
  have hpow : (2 : ℚ) ^ (Int.log 2 q - 52) ≤ q / 2 ^ 52 := by
    have h1 : (2 : ℚ) ^ Int.log 2 q ≤ q := by
      have := Int.zpow_log_le_self (R := ℚ) (b := 2) (by norm_num) hq
      simpa using this
    rw [zpow_sub₀ (by norm_num)]
    have h52 : (2 : ℚ) ^ (52 : ℤ) = 2 ^ 52 := by norm_num
    rw [h52]
    exact div_le_div_of_nonneg_right h1 (by norm_num)
  have hu := two_zpow_pos (Int.log 2 q - 52)
  have herr := roundHalfEven_sub_le (q / (2 : ℚ) ^ (Int.log 2 q - 52))
  have hR : |roundMagnitude q - q| ≤ q / 2 ^ 53 := by
    have hform : roundMagnitude q - q
        = ((roundHalfEven (q / (2 : ℚ) ^ (Int.log 2 q - 52)) : ℚ)
            - q / (2 : ℚ) ^ (Int.log 2 q - 52)) * (2 : ℚ) ^ (Int.log 2 q - 52) := by
      unfold roundMagnitude
      simp only [he]
      field_simp
    rw [hform, abs_mul, abs_of_pos hu]
    calc
      |(roundHalfEven (q / (2 : ℚ) ^ (Int.log 2 q - 52)) : ℚ)
            - q / (2 : ℚ) ^ (Int.log 2 q - 52)| * (2 : ℚ) ^ (Int.log 2 q - 52)
          ≤ 1 / 2 * (2 : ℚ) ^ (Int.log 2 q - 52) :=
        mul_le_mul_of_nonneg_right herr (le_of_lt hu)
      _ ≤ 1 / 2 * (q / 2 ^ 52) := by linarith
      _ = q / 2 ^ 53 := by ring
  refine ⟨roundMagnitude q, ?_, hR⟩
  have hle : roundMagnitude q ≤ q + q / 2 ^ 53 := by
    have := (abs_le.mp hR).2
    linarith
  have hlt : ¬ (2 : ℚ) ^ (1024 : ℕ) ≤ roundMagnitude q := by
    have h1 : q + q / 2 ^ 53 ≤ 2 ^ 71 := by
      have : q / 2 ^ 53 ≤ q := by
        rw [div_le_iff₀ (by norm_num)]
        nlinarith
      have h70 : (2 : ℚ) ^ 71 = 2 ^ 70 + 2 ^ 70 := by norm_num
      linarith
    have h2 : (2 : ℚ) ^ 71 < (2 : ℚ) ^ (1024 : ℕ) := by norm_num
    linarith
  unfold round64
  rw [if_neg (ne_of_gt hq)]
  simp only [abs_of_pos hq, hlt, if_false, not_lt.mpr (le_of_lt hq)]


/-! ## The context estimate -/

theorem addTokens_eq (usage : List (String × Json)) (key : String) (total : F64)
    (h : total.Rounded) :
    addTokens usage key total = F64.add total (.finite (tokenField usage key)) := by
  unfold addTokens tokenField
  split
  · rfl
  · exact (F64.add_zero total h).symm

theorem tokens_eq_tokenSum (usage : List (String × Json)) :
    addTokens usage "cache_creation_input_tokens"
        (addTokens usage "cache_read_input_tokens"
          (addTokens usage "input_tokens" (.finite 0)))
      = tokenSum usage := by
  have h0 : (F64.finite 0).Rounded := round64_zero
  rw [addTokens_eq usage "input_tokens" _ h0,
    addTokens_eq usage "cache_read_input_tokens" _ (F64.add_rounded _ _),
    addTokens_eq usage "cache_creation_input_tokens" _ (F64.add_rounded _ _)]
  rfl

theorem F64.toInt_natCast (outOfRange : F64 → Int) (n : ℕ) (h : n < 2 ^ 63) :
    F64.toInt outOfRange (.finite (n : ℚ)) = n := by
  have h0 : (0 : ℚ) ≤ (n : ℚ) := Nat.cast_nonneg n
  simp only [F64.toInt, h0, if_true, Int.floor_natCast]
  rw [if_pos]
  constructor <;> omega

theorem F64.toInt_of_floor (outOfRange : F64 → Int) (r : ℚ) (f : Int) (h0 : 0 ≤ r)
    (hf : ⌊r⌋ = f) (hlt : f < 9223372036854775808) :
    F64.toInt outOfRange (.finite r) = f := by
  have hf0 : 0 ≤ f := by rw [← hf]; exact Int.floor_nonneg.mpr h0
  simp only [F64.toInt, h0, if_true, hf]
  rw [if_pos]
  constructor <;> omega

theorem tokenSum_of_nat (usage : List (String × Json)) (a b c : ℕ)
    (ha : tokenField usage "input_tokens" = (a : ℚ))
    (hb : tokenField usage "cache_read_input_tokens" = (b : ℚ))
    (hc : tokenField usage "cache_creation_input_tokens" = (c : ℚ))
    (hsum : a + b + c ≤ 2 ^ 53) :
    tokenSum usage = .finite ((a + b + c : ℕ) : ℚ) := by
  unfold tokenSum
  rw [ha, hb, hc]
  simp only [F64.add, zero_add]
  rw [round64_natCast a (by omega)]
  simp only [F64.add]
  rw [show ((a : ℚ) + (b : ℚ)) = ((a + b : ℕ) : ℚ) by push_cast; rfl,
    round64_natCast (a + b) (by omega)]
  simp only [F64.add]
  rw [show (((a + b : ℕ) : ℚ) + (c : ℚ)) = ((a + b + c : ℕ) : ℚ) by push_cast; rfl,
    round64_natCast (a + b + c) hsum]

theorem F64.toInt_intCast (outOfRange : F64 → Int) (n : Int)
    (h1 : -9223372036854775808 ≤ n) (h2 : n < 9223372036854775808) :
    F64.toInt outOfRange (.finite (n : ℚ)) = n := by
  by_cases h0 : (0 : ℚ) ≤ (n : ℚ)
  · simp only [F64.toInt, h0, if_true, Int.floor_intCast]
    rw [if_pos ⟨h1, h2⟩]
  · simp only [F64.toInt, h0, if_false, Int.ceil_intCast]
    rw [if_pos ⟨h1, h2⟩]

theorem tokenSum_of_int (usage : List (String × Json)) (a b c : Int)
    (ha : tokenField usage "input_tokens" = (a : ℚ))
    (hb : tokenField usage "cache_read_input_tokens" = (b : ℚ))
    (hc : tokenField usage "cache_creation_input_tokens" = (c : ℚ))
    (ha1 : -9007199254740992 ≤ a) (ha2 : a ≤ 9007199254740992)
    (hb1 : -9007199254740992 ≤ a + b) (hb2 : a + b ≤ 9007199254740992)
    (hc1 : -9007199254740992 ≤ a + b + c) (hc2 : a + b + c ≤ 9007199254740992) :
    tokenSum usage = .finite ((a + b + c : Int) : ℚ) := by
  unfold tokenSum
  rw [ha, hb, hc]
  simp only [F64.add, zero_add]
  rw [round64_intCast a ha1 ha2]
  simp only [F64.add]
  rw [show ((a : ℚ) + (b : ℚ)) = ((a + b : Int) : ℚ) by push_cast; rfl,
    round64_intCast (a + b) hb1 hb2]
  simp only [F64.add]
  rw [show (((a + b : Int) : ℚ) + (c : ℚ)) = ((a + b + c : Int) : ℚ) by push_cast; rfl,
    round64_intCast (a + b + c) hc1 hc2]

theorem scanLine_record_eq (outOfRange : F64 → Int) (data : List (String × Json)) :
    scanLine outOfRange (.record data) =
      if isSideChain data = true then none
      else
        match usageObject data with
        | none => none
        | some usage =>
          if (tokenSum usage).pos = true then some ((tokenSum usage).toInt outOfRange)
          else none := by
  simp only [scanLine, isSideChain, usageObject, tokens_eq_tokenSum]
  generalize List.lookup "isSidechain" data = s
  generalize List.lookup "message" data = m
  rcases s with _ | (_ | (_ | _) | _ | _ | _ | _) <;>
    rcases m with _ | (_ | _ | _ | _ | _ | message) <;> (try simp) <;>
    (generalize List.lookup "usage" message = u
     rcases u with _ | (_ | _ | _ | _ | _ | usage) <;> simp)

theorem scanLine_record (outOfRange : F64 → Int) (data usage : List (String × Json))
    (hside : isSideChain data = false) (husage : usageObject data = some usage) :
    scanLine outOfRange (.record data) =
      if (tokenSum usage).pos = true then some ((tokenSum usage).toInt outOfRange)
      else none := by
  rw [scanLine_record_eq]
  simp [hside, husage]

theorem scanLine_of_ignored (outOfRange : F64 → Int) (line : Line) (h : ignored line = true) :
    scanLine outOfRange line = none := by
  cases line with
  | blank => rfl
  | invalid => rfl
  | record data =>
    rw [scanLine_record_eq]
    simp only [ignored, Bool.or_eq_true] at h
    by_cases hside : isSideChain data = true
    · simp [hside]
    · simp only [hside, if_false]
      rcases h with h | h
      · exact absurd h hside
      · cases hu : usageObject data with
        | none => rfl
        | some usage =>
          simp only [hu, Bool.not_eq_true'] at h
          simp [h]

theorem scanBackward_skip (outOfRange : F64 → Int) (newer : List Line) (rest : List Line)
    (h : ∀ m ∈ newer, scanLine outOfRange m = none) :
    scanBackward outOfRange (newer ++ rest) = scanBackward outOfRange rest := by
  induction newer with
  | nil => rfl
  | cons m tl ih =>
    rw [List.cons_append]
    simp only [scanBackward, h m (List.mem_cons_self _ _)]
    exact ih (fun x hx => h x (List.mem_cons_of_mem _ hx))

theorem scanBackward_none (outOfRange : F64 → Int) (lines : List Line)
    (h : ∀ m ∈ lines, scanLine outOfRange m = none) :
    scanBackward outOfRange lines = 0 := by
  have := scanBackward_skip outOfRange lines [] h
  simpa [scanBackward] using this

theorem lastLines_eq_drop (allLines : List Line) :
    lastLines allLines = allLines.drop (allLines.length - 100) := by
  unfold lastLines
  simp only
  congr 1
  split <;> omega

theorem lastLines_of_length_le (allLines : List Line) (h : allLines.length ≤ 100) :
    lastLines allLines = allLines := by
  rw [lastLines_eq_drop]
  have : allLines.length - 100 = 0 := by omega
  rw [this, List.drop_zero]

theorem usageData_fields (sideChain : Bool) (tokens : ℚ) :
    isSideChain (usageData sideChain tokens) = sideChain ∧
      usageObject (usageData sideChain tokens) = some [("input_tokens", .number tokens)] ∧
      tokenField [("input_tokens", .number tokens)] "input_tokens" = tokens ∧
      tokenField [("input_tokens", .number tokens)] "cache_read_input_tokens" = 0 ∧
      tokenField [("input_tokens", .number tokens)] "cache_creation_input_tokens" = 0 := by
  refine ⟨?_, rfl, rfl, rfl, rfl⟩
  cases sideChain <;> rfl

theorem tokenSum_usageData (n : ℕ) (h : n ≤ 2 ^ 53) :
    tokenSum [("input_tokens", .number (n : ℚ))] = .finite (n : ℚ) := by
  have := tokenSum_of_nat [("input_tokens", .number (n : ℚ))] n 0 0 rfl
    (by simp [tokenField, List.lookup]) (by simp [tokenField, List.lookup]) (by omega)
  simpa using this

theorem scanLine_usageRecord (outOfRange : F64 → Int) (n : ℕ) (h0 : 0 < n) (h : n ≤ 2 ^ 53) :
    scanLine outOfRange (usageRecord false (n : ℚ)) = some (n : Int) := by
  obtain ⟨h1, h2, _⟩ := usageData_fields false (n : ℚ)
  unfold usageRecord
  rw [scanLine_record outOfRange _ _ h1 h2, tokenSum_usageData n h]
  have hpos : (F64.finite (n : ℚ)).pos = true := by
    simp only [F64.pos, decide_eq_true_eq]
    exact_mod_cast h0
  rw [if_pos hpos, F64.toInt_natCast outOfRange n (by omega)]

theorem ignored_usageRecord_zero : ignored (usageRecord false 0) = true := by
  obtain ⟨h1, h2, _⟩ := usageData_fields false 0
  have hs := tokenSum_usageData 0 (by norm_num)
  simp only [Nat.cast_zero] at hs
  simp only [usageRecord, ignored, h1, h2, hs, F64.pos]
  simp

theorem ignored_usageRecord_sideChain (tokens : ℚ) : ignored (usageRecord true tokens) = true := by
  obtain ⟨h1, _⟩ := usageData_fields true tokens
  simp [usageRecord, ignored, h1]

theorem tokenSum_single (x : ℚ) (h : round64 x = .finite x) :
    tokenSum [("input_tokens", .number x)] = .finite x := by
  obtain ⟨-, -, hf0, hf1, hf2⟩ := usageData_fields false x
  unfold tokenSum
  rw [hf0, hf1, hf2]
  simp only [F64.add, zero_add, add_zero, h]

theorem F64.toInt_of_large (outOfRange : F64 → Int) (x : ℚ)
    (hx : ((9223372036854775808 : Int) : ℚ) ≤ x) :
    F64.toInt outOfRange (.finite x) = outOfRange (.finite x) := by
  have h0 : (0 : ℚ) ≤ x := le_trans (by norm_num) hx
  have hfl : (9223372036854775808 : Int) ≤ ⌊x⌋ := Int.le_floor.mpr hx
  simp only [F64.toInt, h0, if_true]
  rw [if_neg (by omega)]

theorem calculateContextUsage_single (outOfRange : F64 → Int) (x : ℚ)
    (h : round64 x = .finite x) (hpos : 0 < x) :
    calculateContextUsage outOfRange (some [usageRecord false x])
      = F64.toInt outOfRange (.finite x) := by
  obtain ⟨h1, h2, _⟩ := usageData_fields false x
  have hwin : lastLines [usageRecord false x] = [usageRecord false x] := rfl
  have hp : (F64.finite x).pos = true := by
    simp only [F64.pos, decide_eq_true_eq]
    exact hpos
  simp only [calculateContextUsage, hwin, List.reverse_cons, List.reverse_nil, List.nil_append,
    scanBackward]
  unfold usageRecord
  rw [scanLine_record outOfRange _ _ h1 h2, tokenSum_single x h, if_pos hp]

theorem tokenSum_usageFields (a b c : ℚ) :
    tokenSum (usageFields a b c)
      = F64.add (F64.add (F64.add (.finite 0) (.finite a)) (.finite b)) (.finite c) := rfl

theorem tokenSum_tie (a b c : ℚ) (ha : a = 9007199254740992) (hb : b = 1) (hc : c = 1) :
    tokenSum (usageFields a b c) = .finite 9007199254740992 := by
  have h0 : round64 a = .finite a := by
    have h := round64_natCast 9007199254740992 (by norm_num)
    have hv : ((9007199254740992 : ℕ) : ℚ) = a := by rw [ha]; norm_num
    rw [hv] at h
    exact h
  have h1 : round64 (a + b) = .finite a := by
    rw [round64_tie (a + b) (by rw [ha, hb]; norm_num), ha]
  have h2 : round64 (a + c) = .finite a := by
    rw [round64_tie (a + c) (by rw [ha, hc]; norm_num), ha]
  rw [tokenSum_usageFields]
  simp only [F64.add, zero_add, h0, h1, h2]
  rw [ha]


theorem scanBackward_usageRecord (outOfRange : F64 → Int) (newer older : List Line) (n : ℕ)
    (h0 : 0 < n) (h : n ≤ 2 ^ 53) (hnewer : ∀ m ∈ newer, ignored m = true) :
    scanBackward outOfRange (newer ++ usageRecord false (n : ℚ) :: older) = (n : Int) := by
  rw [scanBackward_skip outOfRange newer _
    (fun m hm => scanLine_of_ignored outOfRange m (hnewer m hm))]
  simp only [scanBackward, scanLine_usageRecord outOfRange n h0 h]

/-- C11: when the window (the last 100 lines) is `older`, then a record that is
not a side-chain record and has a `message.usage` object whose token sum
`input_tokens + cache_read_input_tokens + cache_creation_input_tokens` (a
missing field counted as 0, the sum taken in `float64`) is strictly positive,
then lines that are all ignored, the estimate is that sum converted by
`int(total)`; when the three fields are integers whose partial sums, in the
order of the code, lie between `-2^53` and `2^53`, that is their sum in the
integers, and it is positive in `float64` exactly when it is positive; when
every line of the window
is ignored, in particular when the window is empty or holds only side-chain
records, the estimate is 0. -/
theorem calculateContextUsage_most_recent (outOfRange : F64 → Int) (allLines : List Line) :
    (∀ (older newer : List Line) (data usage : List (String × Json)),
        lastLines allLines = older ++ Line.record data :: newer →
        isSideChain data = false → usageObject data = some usage →
        (tokenSum usage).pos = true →
        (∀ m ∈ newer, ignored m = true) →
        calculateContextUsage outOfRange (some allLines)
          = (tokenSum usage).toInt outOfRange) ∧
      (∀ (usage : List (String × Json)) (a b c : Int),
        tokenField usage "input_tokens" = (a : ℚ) →
        tokenField usage "cache_read_input_tokens" = (b : ℚ) →
        tokenField usage "cache_creation_input_tokens" = (c : ℚ) →
        -9007199254740992 ≤ a → a ≤ 9007199254740992 →
        -9007199254740992 ≤ a + b → a + b ≤ 9007199254740992 →
        -9007199254740992 ≤ a + b + c → a + b + c ≤ 9007199254740992 →
        ((tokenSum usage).pos = true ↔ 0 < a + b + c) ∧
          (tokenSum usage).toInt outOfRange = a + b + c) ∧
      ((∀ m ∈ lastLines allLines, ignored m = true) →
        calculateContextUsage outOfRange (some allLines) = 0) ∧
      (lastLines allLines = [] → calculateContextUsage outOfRange (some allLines) = 0) ∧
      ((∀ m ∈ lastLines allLines, sideChainLine m = true) →
        calculateContextUsage outOfRange (some allLines) = 0) := by
  refine ⟨?_, ?_, ?_, ?_, ?_⟩
  · intro older newer data usage hwin hside husage hpos hnewer
    simp only [calculateContextUsage, hwin, List.reverse_append, List.reverse_cons,
      List.append_assoc, List.singleton_append]
    rw [scanBackward_skip _ _ _ (fun m hm =>
      scanLine_of_ignored outOfRange m (hnewer m (List.mem_reverse.mp hm)))]
    simp only [scanBackward, scanLine_record outOfRange data usage hside husage, hpos, if_true]
  · intro usage a b c ha hb hc ha1 ha2 hb1 hb2 hc1 hc2
    rw [tokenSum_of_int usage a b c ha hb hc ha1 ha2 hb1 hb2 hc1 hc2]
    refine ⟨?_, F64.toInt_intCast outOfRange _ (by omega) (by omega)⟩
    simp only [F64.pos, decide_eq_true_eq]
    exact_mod_cast Iff.rfl
  · intro h
    exact scanBackward_none _ _
      (fun m hm => scanLine_of_ignored outOfRange m (h m (List.mem_reverse.mp hm)))
  · intro h
    simp [calculateContextUsage, h, scanBackward]
  · intro h
    refine scanBackward_none _ _ (fun m hm => scanLine_of_ignored outOfRange m ?_)
    have hs := h m (List.mem_reverse.mp hm)
    cases m with
    | blank => rfl
    | invalid => rfl
    | record data =>
      simp only [sideChainLine] at hs
      simp [ignored, hs]

/-- C11, on the scenario of the specification: newest first, a side-chain
record with usage 500, a primary record with usage 0, a primary record with
usage 1200; and on three records where the sum in `float64` shows: the fields
`2^53`, 1 and 1 give `2^53`, a field of `1e19` gives what `int(total)` gives
out of range (`-2^63` on amd64), and a field of 0.5 is positive and gives 0. -/
theorem calculateContextUsage_most_recent_witness :
    (lastLines [usageRecord false 1200, usageRecord false 0, usageRecord true 500]
        = [] ++ Line.record (usageData false 1200)
          :: [usageRecord false 0, usageRecord true 500]) ∧
      isSideChain (usageData false 1200) = false ∧
      usageObject (usageData false 1200) = some [("input_tokens", .number 1200)] ∧
      (tokenSum [("input_tokens", .number 1200)]).pos = true ∧
      (∀ m ∈ [usageRecord false 0, usageRecord true 500], ignored m = true) ∧
      calculateContextUsage minInt64OnOverflow
        (some [usageRecord false 1200, usageRecord false 0, usageRecord true 500]) = 1200 ∧
      calculateContextUsage minInt64OnOverflow
        (some [Line.record (fieldsData 9007199254740992 1 1)]) = 9007199254740992 ∧
      calculateContextUsage minInt64OnOverflow
        (some [usageRecord false 10000000000000000000]) = -9223372036854775808 ∧
      calculateContextUsage minInt64OnOverflow (some [usageRecord false (1 / 2)]) = 0 := by
  have hfield : tokenField [("input_tokens", Json.number 1200)] "input_tokens"
      = ((1200 : Int) : ℚ) := by
    rw [(usageData_fields false 1200).2.2.1]; norm_num
  have hzero1 : tokenField [("input_tokens", Json.number 1200)] "cache_read_input_tokens"
      = ((0 : Int) : ℚ) := by
    rw [(usageData_fields false 1200).2.2.2.1]; norm_num
  have hzero2 : tokenField [("input_tokens", Json.number 1200)] "cache_creation_input_tokens"
      = ((0 : Int) : ℚ) := by
    rw [(usageData_fields false 1200).2.2.2.2]; norm_num
  have hexact := (calculateContextUsage_most_recent minInt64OnOverflow
    [usageRecord false 1200, usageRecord false 0, usageRecord true 500]).2.1
    [("input_tokens", Json.number 1200)] 1200 0 0 hfield hzero1 hzero2
    (by decide) (by decide) (by decide) (by decide) (by decide) (by decide)
  have hpos : (tokenSum [("input_tokens", Json.number 1200)]).pos = true :=
    hexact.1.mpr (by norm_num)
  have hnewer : ∀ m ∈ [usageRecord false 0, usageRecord true 500], ignored m = true := by
    intro m hm
    simp only [List.mem_cons, List.mem_singleton, List.not_mem_nil, or_false] at hm
    rcases hm with rfl | rfl
    · exact ignored_usageRecord_zero
    · exact ignored_usageRecord_sideChain 500
  have hnone : ∀ m ∈ ([] : List Line), ignored m = true := fun m hm => by simp at hm
  have htie := tokenSum_tie 9007199254740992 1 1 rfl rfl rfl
  have htiePos : (tokenSum (usageFields 9007199254740992 1 1)).pos = true := by
    rw [htie]
    simp only [F64.pos, decide_eq_true_eq]
    norm_num
  have htieInt : F64.toInt minInt64OnOverflow (tokenSum (usageFields 9007199254740992 1 1))
      = 9007199254740992 := by
    rw [htie]
    have h := F64.toInt_natCast minInt64OnOverflow 9007199254740992 (by norm_num)
    have hv : ((9007199254740992 : ℕ) : ℚ) = 9007199254740992 := by norm_num
    rw [hv] at h
    exact h
  have hbig := tokenSum_single 10000000000000000000 round64_overflowing
  have hbigPos : (tokenSum [("input_tokens", Json.number 10000000000000000000)]).pos
      = true := by
    rw [hbig]
    simp only [F64.pos, decide_eq_true_eq]
    norm_num
  have hbigInt : F64.toInt minInt64OnOverflow
      (tokenSum [("input_tokens", Json.number 10000000000000000000)])
      = -9223372036854775808 := by
    rw [hbig]
    exact F64.toInt_of_large minInt64OnOverflow 10000000000000000000 (by norm_num)
  have hhalf := tokenSum_single (1 / 2) round64_half
  have hhalfPos : (tokenSum [("input_tokens", Json.number (1 / 2))]).pos = true := by
    rw [hhalf]
    simp only [F64.pos, decide_eq_true_eq]
    norm_num
  have hhalfInt : F64.toInt minInt64OnOverflow (tokenSum [("input_tokens", Json.number (1 / 2))])
      = 0 := by
    rw [hhalf]
    apply F64.toInt_of_floor minInt64OnOverflow (1 / 2) 0 (by norm_num) _ (by norm_num)
    rw [Int.floor_eq_iff]
    constructor <;> norm_num
  exact ⟨rfl, rfl, rfl, hpos, hnewer,
    ((calculateContextUsage_most_recent minInt64OnOverflow
      [usageRecord false 1200, usageRecord false 0, usageRecord true 500]).1 []
      [usageRecord false 0, usageRecord true 500] (usageData false 1200)
      [("input_tokens", .number 1200)] rfl rfl rfl hpos hnewer).trans
      (hexact.2.trans (by norm_num)),
    ((calculateContextUsage_most_recent minInt64OnOverflow
      [Line.record (fieldsData 9007199254740992 1 1)]).1 [] []
      (fieldsData 9007199254740992 1 1) (usageFields 9007199254740992 1 1)
      rfl rfl rfl htiePos hnone).trans htieInt,
    ((calculateContextUsage_most_recent minInt64OnOverflow
      [usageRecord false 10000000000000000000]).1 [] []
      (usageData false 10000000000000000000)
      [("input_tokens", .number 10000000000000000000)] rfl rfl rfl hbigPos hnone).trans
      hbigInt,
    ((calculateContextUsage_most_recent minInt64OnOverflow
      [usageRecord false (1 / 2)]).1 [] [] (usageData false (1 / 2))
      [("input_tokens", .number (1 / 2))] rfl rfl rfl hhalfPos hnone).trans hhalfInt⟩

theorem scanBackward_filter (outOfRange : F64 → Int) (lines : List Line) :
    scanBackward outOfRange (lines.filter (fun l => !isBlank l))
      = scanBackward outOfRange lines := by
  induction lines with
  | nil => rfl
  | cons l rest ih =>
    cases l with
    | blank => simpa [List.filter_cons, isBlank, scanBackward, scanLine] using ih
    | invalid => simpa [List.filter_cons, isBlank, scanBackward, scanLine] using ih
    | record data =>
      have hf : (Line.record data :: rest).filter (fun l => !isBlank l)
          = Line.record data :: rest.filter (fun l => !isBlank l) := rfl
      rw [hf]
      simp only [scanBackward]
      rw [ih]

theorem filter_eq_self_of_not_blank (lines : List Line)
    (h : ∀ l ∈ lines, isBlank l = false) : lines.filter (fun l => !isBlank l) = lines := by
  rw [List.filter_eq_self]
  intro l hl
  simp [h l hl]

theorem lastLines_append_full (front window : List Line) (h : window.length = 100) :
    lastLines (front ++ window) = window := by
  rw [lastLines_eq_drop, List.length_append, h, Nat.add_sub_cancel]
  exact List.drop_left front window

/-- C12 as stated fails: on a transcript whose only record is followed by 100
empty lines the code's window holds the empty lines alone and the estimate is
0, where the reference estimator over the last 100 non-empty lines gives 1200. -/
theorem window_counts_empty_lines :
    calculateContextUsage minInt64OnOverflow
        (some (usageRecord false 1200 :: List.replicate 100 Line.blank)) = 0 ∧
      referenceEstimate minInt64OnOverflow
        (usageRecord false 1200 :: List.replicate 100 Line.blank) = 1200 := by
  constructor
  · have hwin : lastLines (usageRecord false 1200 :: List.replicate 100 Line.blank)
        = List.replicate 100 Line.blank := rfl
    simp only [calculateContextUsage, hwin]
    apply scanBackward_none
    intro m hm
    rw [List.mem_reverse, List.mem_replicate] at hm
    rw [hm.2]
    rfl
  · have hfilter : (usageRecord false 1200 :: List.replicate 100 Line.blank).filter
        (fun l => !isBlank l) = [usageRecord false 1200] := rfl
    have hwin : lastLines [usageRecord false 1200] = [usageRecord false 1200] := rfl
    have h := scanBackward_usageRecord minInt64OnOverflow [] [] 1200 (by norm_num)
      (by norm_num) (by simp)
    simp only [Nat.cast_ofNat, List.nil_append] at h
    simp only [referenceEstimate, hfilter, hwin, List.reverse_singleton]
    exact h

/-- C12, amended: `calculateContextUsage` returns the value of the estimator
that keeps the last 100 lines, empty ones included, discards the empty lines
among them and scans the rest newest to oldest; it returns the value of the
reference estimator over the last 100 non-empty lines whenever the transcript
has at most 100 lines or its last 100 lines hold no empty line. -/
theorem calculateContextUsage_window (outOfRange : F64 → Int) (allLines : List Line) :
    calculateContextUsage outOfRange (some allLines)
        = scanBackward outOfRange
          ((lastLines allLines).filter (fun l => !isBlank l)).reverse ∧
      ((allLines.length ≤ 100 ∨ ∀ l ∈ lastLines allLines, isBlank l = false) →
        calculateContextUsage outOfRange (some allLines)
          = referenceEstimate outOfRange allLines) := by
  have h1 : calculateContextUsage outOfRange (some allLines)
      = scanBackward outOfRange
        ((lastLines allLines).filter (fun l => !isBlank l)).reverse := by
    rw [← List.filter_reverse, scanBackward_filter]
    rfl
  refine ⟨h1, fun h => ?_⟩
  have hshort : allLines.length ≤ 100 →
      calculateContextUsage outOfRange (some allLines)
        = referenceEstimate outOfRange allLines := by
    intro hlen
    rw [h1]
    unfold referenceEstimate
    rw [lastLines_of_length_le allLines hlen, lastLines_of_length_le]
    exact le_trans (List.length_filter_le _ _) hlen
  rcases h with h | h
  · exact hshort h
  · by_cases hlen : allLines.length ≤ 100
    · exact hshort hlen
    · have hwin : (lastLines allLines).length = 100 := by
        rw [lastLines_eq_drop, List.length_drop]; omega
      have hsplit : allLines = allLines.take (allLines.length - 100) ++ lastLines allLines := by
        rw [lastLines_eq_drop, List.take_append_drop]
      unfold referenceEstimate
      conv_rhs => rw [hsplit, List.filter_append, filter_eq_self_of_not_blank _ h,
        lastLines_append_full _ _ hwin]
      rfl

/-- C12 amended, on a transcript of four lines with an empty line. -/
theorem calculateContextUsage_window_witness :
    ([usageRecord false 1200, Line.blank, usageRecord false 0, usageRecord true 500].length ≤ 100
        ∨ ∀ l ∈ lastLines [usageRecord false 1200, Line.blank, usageRecord false 0,
          usageRecord true 500], isBlank l = false) ∧
      calculateContextUsage minInt64OnOverflow
          (some [usageRecord false 1200, Line.blank, usageRecord false 0, usageRecord true 500])
        = referenceEstimate minInt64OnOverflow
          [usageRecord false 1200, Line.blank, usageRecord false 0, usageRecord true 500] ∧
      referenceEstimate minInt64OnOverflow
          [usageRecord false 1200, Line.blank, usageRecord false 0, usageRecord true 500]
        = 1200 :=
  have href : referenceEstimate minInt64OnOverflow
      [usageRecord false 1200, Line.blank, usageRecord false 0, usageRecord true 500]
      = 1200 := by
    have h := scanBackward_usageRecord minInt64OnOverflow
      [usageRecord true 500, usageRecord false 0] [] 1200 (by norm_num) (by norm_num)
      (by
        intro m hm
        simp only [List.mem_cons, List.mem_singleton, List.not_mem_nil, or_false] at hm
        rcases hm with rfl | rfl
        · exact ignored_usageRecord_sideChain 500
        · exact ignored_usageRecord_zero)
    simp only [Nat.cast_ofNat] at h
    exact h
  ⟨Or.inl (by decide),
    (calculateContextUsage_window minInt64OnOverflow
      [usageRecord false 1200, Line.blank, usageRecord false 0, usageRecord true 500]).2
      (Or.inl (by decide)), href⟩

theorem scanBackward_remove (outOfRange : F64 → Int) (newer older : List Line) (line : Line)
    (h : scanLine outOfRange line = none) :
    scanBackward outOfRange (newer ++ line :: older)
      = scanBackward outOfRange (newer ++ older) := by
  induction newer with
  | nil => simp [scanBackward, h]
  | cons m tl ih =>
    rw [List.cons_append, List.cons_append]
    simp only [scanBackward]
    rw [ih]

/-- C13: in a transcript of at most 100 lines, removing a record whose
`isSidechain` is the boolean `true`, whatever else it carries, leaves the
estimate of `calculateContextUsage` unchanged. -/
theorem calculateContextUsage_sideChain_removed (outOfRange : F64 → Int) (before after : List Line)
    (data : List (String × Json))
    (hlen : (before ++ Line.record data :: after).length ≤ 100)
    (hside : data.lookup "isSidechain" = some (Json.bool true)) :
    calculateContextUsage outOfRange (some (before ++ Line.record data :: after))
      = calculateContextUsage outOfRange (some (before ++ after)) := by
  have hlen2 : (before ++ after).length ≤ 100 := by
    simp only [List.length_append, List.length_cons] at hlen ⊢; omega
  have hnone : scanLine outOfRange (Line.record data) = none := by
    apply scanLine_of_ignored
    simp [ignored, isSideChain, hside]
  simp only [calculateContextUsage, lastLines_of_length_le _ hlen, lastLines_of_length_le _ hlen2,
    List.reverse_append, List.reverse_cons, List.append_assoc, List.singleton_append]
  exact scanBackward_remove _ _ _ _ hnone

/-- C13, on a side-chain record with usage 500 placed after a primary record
with usage 1200. -/
theorem calculateContextUsage_sideChain_removed_witness :
    ([usageRecord false 1200] ++ Line.record (usageData true 500) :: [Line.invalid]).length ≤ 100 ∧
      (usageData true 500).lookup "isSidechain" = some (Json.bool true) ∧
      calculateContextUsage minInt64OnOverflow
          (some ([usageRecord false 1200] ++ Line.record (usageData true 500) :: [Line.invalid]))
        = calculateContextUsage minInt64OnOverflow
          (some ([usageRecord false 1200] ++ [Line.invalid])) ∧
      calculateContextUsage minInt64OnOverflow
        (some ([usageRecord false 1200] ++ [Line.invalid])) = 1200 :=
  have hval : calculateContextUsage minInt64OnOverflow
      (some ([usageRecord false 1200] ++ [Line.invalid])) = 1200 := by
    have h := scanBackward_usageRecord minInt64OnOverflow [Line.invalid] [] 1200
      (by norm_num) (by norm_num)
      (by
        intro m hm
        simp only [List.mem_singleton] at hm
        rw [hm]; rfl)
    simp only [Nat.cast_ofNat] at h
    exact h
  ⟨by decide, rfl,
    calculateContextUsage_sideChain_removed minInt64OnOverflow [usageRecord false 1200]
      [Line.invalid] (usageData true 500) (by decide) rfl, hval⟩


/-! ## The cache of the git branch -/

theorem branch_result_ne_empty (branch : String) : " ⚡ " ++ branch ≠ "" := by
  intro h
  have := congrArg String.length h
  simp only [String.length_append] at this
  have h3 : " ⚡ ".length = 3 := by decide
  have h0 : "".length = 0 := by decide
  omega

theorem getGitBranch_hit_eq (cache : GitCache) (now storeNow : Int) (env : GitEnv)
    (h1 : now < cache.gitBranchExpires) (h2 : cache.gitBranchCache ≠ "") :
    getGitBranch cache now storeNow env
      = { result := cache.gitBranchCache, cache := cache, lookedUp := false } := by
  simp [getGitBranch, h1, h2]

theorem getGitBranch_miss_lookedUp (cache : GitCache) (now storeNow : Int) (env : GitEnv)
    (h : ¬ (now < cache.gitBranchExpires ∧ cache.gitBranchCache ≠ "")) :
    (getGitBranch cache now storeNow env).lookedUp = true := by
  unfold getGitBranch
  rw [if_neg h]
  split
  · rfl
  · split
    · rfl
    · simp only
      split <;> rfl

theorem getGitBranch_loaded (cache : GitCache) (now storeNow : Int) (env : GitEnv)
    (hload : (getGitBranch cache now storeNow env).lookedUp = true)
    (hne : (getGitBranch cache now storeNow env).result ≠ "") :
    (getGitBranch cache now storeNow env).cache
      = { gitBranchCache := (getGitBranch cache now storeNow env).result,
          gitBranchExpires := storeNow + 5000000000 } := by
  unfold getGitBranch at hload hne ⊢
  split at hload
  · simp at hload
  · rename_i hmiss
    rw [if_neg hmiss] at hne ⊢
    split
    · rename_i h; simp [h] at hne
    · rename_i h
      rw [if_neg h] at hne
      split
      · rename_i hb; simp [hb] at hne
      · rename_i out hb
        simp only [hb] at hne ⊢
        split
        · rename_i he; simp [he] at hne
        · rfl

theorem getGitBranch_cache (cache : GitCache) (now storeNow : Int) (env : GitEnv) :
    (getGitBranch cache now storeNow env).cache = cache ∨
      (getGitBranch cache now storeNow env).cache.gitBranchCache ≠ "" := by
  unfold getGitBranch
  split
  · exact Or.inl rfl
  · split
    · exact Or.inl rfl
    · split
      · exact Or.inl rfl
      · simp only
        split
        · exact Or.inl rfl
        · exact Or.inr (branch_result_ne_empty _)

theorem getGitBranch_emptyLoad (cache : GitCache) (now storeNow : Int) (env : GitEnv)
    (hmiss : ¬ (now < cache.gitBranchExpires ∧ cache.gitBranchCache ≠ ""))
    (hempty : emptyLoad env) :
    getGitBranch cache now storeNow env = { result := "", cache := cache, lookedUp := true } := by
  unfold getGitBranch
  rw [if_neg hmiss]
  rcases hempty with ⟨h1, h2⟩ | h | ⟨out, h, ht⟩
  · simp [h1, h2]
  · split
    · rfl
    · simp [h]
  · split
    · rfl
    · simp [h, ht]

/-- C14: after a call of `getGitBranch` that ran the lookups and got a non-empty
value `v`, storing it at time `t0`, every call at a time `t < t0 + 5 s` returns
`v` without running the lookups and leaves the package variables unchanged; a
call at a time `t ≥ t0 + 5 s` runs the lookups again. -/
theorem getGitBranch_cached_within_ttl (cache : GitCache) (now0 t0 : Int) (env0 : GitEnv)
    (hload : (getGitBranch cache now0 t0 env0).lookedUp = true)
    (hne : (getGitBranch cache now0 t0 env0).result ≠ "") :
    (∀ (t storeNow : Int) (env : GitEnv), t < t0 + 5000000000 →
        getGitBranch (getGitBranch cache now0 t0 env0).cache t storeNow env
          = { result := (getGitBranch cache now0 t0 env0).result,
              cache := (getGitBranch cache now0 t0 env0).cache, lookedUp := false }) ∧
      (∀ (t storeNow : Int) (env : GitEnv), t0 + 5000000000 ≤ t →
        (getGitBranch (getGitBranch cache now0 t0 env0).cache t storeNow env).lookedUp = true) := by
  have hc := getGitBranch_loaded cache now0 t0 env0 hload hne
  constructor
  · intro t storeNow env ht
    have := getGitBranch_hit_eq (getGitBranch cache now0 t0 env0).cache t storeNow env
      (by rw [hc]; exact ht) (by rw [hc]; exact hne)
    rw [this]
    congr 1
    rw [hc]
  · intro t storeNow env ht
    apply getGitBranch_miss_lookedUp
    rw [hc]
    intro h
    have := h.1
    simp only at this
    omega

/-- C14, on an empty cache and a repository on branch `main`: the value stored
at 1 s is returned until 6 s and looked up again from 6 s on. -/
theorem getGitBranch_cached_within_ttl_witness :
    (getGitBranch { gitBranchCache := "", gitBranchExpires := 0 } 1000000000 1000000000
        { dotGitMissing := false, revParseFails := false, branchOutput := some "main " }).lookedUp
        = true ∧
      (getGitBranch { gitBranchCache := "", gitBranchExpires := 0 } 1000000000 1000000000
        { dotGitMissing := false, revParseFails := false, branchOutput := some "main " }).result
        ≠ "" ∧
      getGitBranch { gitBranchCache := " ⚡ main", gitBranchExpires := 6000000000 }
          5999999999 5999999999
          { dotGitMissing := true, revParseFails := true, branchOutput := none }
        = { result := " ⚡ main",
            cache := { gitBranchCache := " ⚡ main", gitBranchExpires := 6000000000 },
            lookedUp := false } ∧
      (getGitBranch { gitBranchCache := " ⚡ main", gitBranchExpires := 6000000000 }
          6000000000 6000000000
          { dotGitMissing := true, revParseFails := true, branchOutput := none }).lookedUp
        = true :=
  ⟨by decide, by decide,
    (getGitBranch_cached_within_ttl { gitBranchCache := "", gitBranchExpires := 0 }
      1000000000 1000000000
      { dotGitMissing := false, revParseFails := false, branchOutput := some "main " }
      (by decide) (by decide)).1 5999999999 5999999999
      { dotGitMissing := true, revParseFails := true, branchOutput := none } (by decide),
    (getGitBranch_cached_within_ttl { gitBranchCache := "", gitBranchExpires := 0 }
      1000000000 1000000000
      { dotGitMissing := false, revParseFails := false, branchOutput := some "main " }
      (by decide) (by decide)).2 6000000000 6000000000
      { dotGitMissing := true, revParseFails := true, branchOutput := none } (by decide)⟩

/-- C15: on a miss, when the lookups fail or yield an empty branch name,
`getGitBranch` returns the empty string and leaves the package variables
unchanged, so a call at any later time runs the lookups again; every call
leaves the package variables unchanged or stores a non-empty value, so the
stored value, once non-empty, is never the empty string. -/
theorem getGitBranch_empty_not_cached (cache : GitCache) (now storeNow : Int) (env : GitEnv) :
    (¬ (now < cache.gitBranchExpires ∧ cache.gitBranchCache ≠ "") → emptyLoad env →
        getGitBranch cache now storeNow env
            = { result := "", cache := cache, lookedUp := true } ∧
          ∀ (t storeNow2 : Int) (env2 : GitEnv), now ≤ t →
            (getGitBranch (getGitBranch cache now storeNow env).cache t storeNow2 env2).lookedUp
              = true) ∧
      ((getGitBranch cache now storeNow env).cache = cache ∨
        (getGitBranch cache now storeNow env).cache.gitBranchCache ≠ "") ∧
      (cache.gitBranchCache ≠ "" →
        (getGitBranch cache now storeNow env).cache.gitBranchCache ≠ "") := by
  refine ⟨fun hmiss hempty => ?_, getGitBranch_cache cache now storeNow env, fun hset => ?_⟩
  · have h := getGitBranch_emptyLoad cache now storeNow env hmiss hempty
    refine ⟨h, fun t storeNow2 env2 ht => ?_⟩
    rw [h]
    apply getGitBranch_miss_lookedUp
    intro hhit
    exact hmiss ⟨by have := hhit.1; simp only at this; omega, hhit.2⟩
  · rcases getGitBranch_cache cache now storeNow env with h | h
    · rw [h]; exact hset
    · exact h

/-- C15, outside a repository with an empty cache, and with an expired value. -/
theorem getGitBranch_empty_not_cached_witness :
    ¬ ((7 : Int) < 0 ∧ "" ≠ "") ∧
      emptyLoad { dotGitMissing := true, revParseFails := true, branchOutput := none } ∧
      getGitBranch { gitBranchCache := "", gitBranchExpires := 0 } 7 7
          { dotGitMissing := true, revParseFails := true, branchOutput := none }
        = { result := "", cache := { gitBranchCache := "", gitBranchExpires := 0 },
            lookedUp := true } ∧
      (getGitBranch { gitBranchCache := " ⚡ main", gitBranchExpires := 5 } 7 7
          { dotGitMissing := false, revParseFails := false,
            branchOutput := some " " }).cache.gitBranchCache ≠ "" :=
  ⟨by decide, Or.inl ⟨rfl, rfl⟩,
    ((getGitBranch_empty_not_cached { gitBranchCache := "", gitBranchExpires := 0 } 7 7
      { dotGitMissing := true, revParseFails := true, branchOutput := none }).1
      (by decide) (Or.inl ⟨rfl, rfl⟩)).1,
    (getGitBranch_empty_not_cached { gitBranchCache := " ⚡ main", gitBranchExpires := 5 } 7 7
      { dotGitMissing := false, revParseFails := false, branchOutput := some " " }).2.2
      (by decide)⟩

/-! ## The percentage of the budget -/

theorem contextPercentage_small (outOfRange : F64 → Int) (k : ℕ) (hk : k < 202000) :
    contextPercentage outOfRange (k : ℤ) = ((k * 100 / 200000 : ℕ) : ℤ) := by
  have hf100 : k * 100 / 200000 ≤ 100 := by omega
  have h1 : F64.ofInt (k : ℤ) = .finite (k : ℚ) := by
    unfold F64.ofInt
    rw [Int.cast_natCast]
    exact round64_natCast k (by omega)
  have h2 : F64.mulConst 100 (.finite (k : ℚ)) = .finite ((k * 100 : ℕ) : ℚ) := by
    simp only [F64.mulConst]
    rw [show (k : ℚ) * 100 = ((k * 100 : ℕ) : ℚ) by push_cast; ring]
    exact round64_natCast (k * 100) (by omega)
  have hdecomp : k * 100 = 200000 * (k * 100 / 200000) + k * 100 % 200000 :=
    (Nat.div_add_mod (k * 100) 200000).symm
  have hq : ((k * 100 : ℕ) : ℚ) / 200000
      = ((k * 100 / 200000 : ℕ) : ℚ) + ((k * 100 % 200000 : ℕ) : ℚ) / 200000 := by
    have : ((k * 100 : ℕ) : ℚ)
        = 200000 * ((k * 100 / 200000 : ℕ) : ℚ) + ((k * 100 % 200000 : ℕ) : ℚ) := by
      exact_mod_cast congrArg (fun x : ℕ => (x : ℚ)) hdecomp
    rw [this]
    field_simp
    ring
  have h3 : F64.toInt outOfRange (F64.divConst 200000 (.finite ((k * 100 : ℕ) : ℚ)))
      = ((k * 100 / 200000 : ℕ) : ℤ) := by
    simp only [F64.divConst]
    rcases Nat.eq_zero_or_pos (k * 100 % 200000) with hz | hpos
    · rw [hq, hz]
      simp only [Nat.cast_zero, zero_div, add_zero]
      rw [round64_natCast _ (by omega)]
      exact F64.toInt_natCast outOfRange _ (by omega)
    · have hrem : k * 100 % 200000 < 200000 := Nat.mod_lt _ (by norm_num)
      have hρ1 : (1 : ℚ) ≤ ((k * 100 % 200000 : ℕ) : ℚ) := by exact_mod_cast hpos
      have hρ2 : ((k * 100 % 200000 : ℕ) : ℚ) ≤ 199999 := by
        have : k * 100 % 200000 ≤ 199999 := by omega
        exact_mod_cast this
      have hfq : ((k * 100 / 200000 : ℕ) : ℚ) ≤ 100 := by exact_mod_cast hf100
      have hf0 : (0 : ℚ) ≤ ((k * 100 / 200000 : ℕ) : ℚ) := Nat.cast_nonneg _
      have hqlo : (1 : ℚ) / 2 ^ 20 ≤ ((k * 100 : ℕ) : ℚ) / 200000 := by
        rw [hq]
        have : (1 : ℚ) / 200000 ≤ ((k * 100 % 200000 : ℕ) : ℚ) / 200000 :=
          div_le_div_of_nonneg_right hρ1 (by norm_num)
        have h20 : (1 : ℚ) / 2 ^ 20 ≤ 1 / 200000 := by norm_num
        linarith
      have hqhi : ((k * 100 : ℕ) : ℚ) / 200000 ≤ 101 := by
        rw [hq]
        have : ((k * 100 % 200000 : ℕ) : ℚ) / 200000 ≤ 199999 / 200000 :=
          div_le_div_of_nonneg_right hρ2 (by norm_num)
        linarith
      obtain ⟨r, hr, herr⟩ := round64_near (((k * 100 : ℕ) : ℚ) / 200000) hqlo
        (le_trans hqhi (by norm_num))
      rw [hr]
      have hb := abs_le.mp herr
      have herrb : ((k * 100 : ℕ) : ℚ) / 200000 / 2 ^ 53 ≤ 1 / 400000 := by
        have : ((k * 100 : ℕ) : ℚ) / 200000 / 2 ^ 53 ≤ 101 / 2 ^ 53 :=
          div_le_div_of_nonneg_right hqhi (by norm_num)
        have h2 : (101 : ℚ) / 2 ^ 53 ≤ 1 / 400000 := by norm_num
        linarith
      have hlo : ((k * 100 / 200000 : ℕ) : ℚ) + 1 / 200000
          ≤ ((k * 100 : ℕ) : ℚ) / 200000 := by
        rw [hq]
        have : (1 : ℚ) / 200000 ≤ ((k * 100 % 200000 : ℕ) : ℚ) / 200000 :=
          div_le_div_of_nonneg_right hρ1 (by norm_num)
        linarith
      have hhi : ((k * 100 : ℕ) : ℚ) / 200000
          ≤ ((k * 100 / 200000 : ℕ) : ℚ) + 199999 / 200000 := by
        rw [hq]
        have : ((k * 100 % 200000 : ℕ) : ℚ) / 200000 ≤ 199999 / 200000 :=
          div_le_div_of_nonneg_right hρ2 (by norm_num)
        linarith
      have hr0 : 0 ≤ r := by linarith [hb.1]
      apply F64.toInt_of_floor outOfRange r _ hr0 _ (by omega)
      rw [Int.floor_eq_iff]
      simp only [Int.cast_natCast]
      constructor
      · linarith [hb.1]
      · linarith [hb.2]
  have hp : F64.toInt outOfRange
      (F64.divConst 200000 (F64.mulConst 100 (F64.ofInt (k : ℤ))))
      = ((k * 100 / 200000 : ℕ) : ℤ) := by
    rw [h1, h2, h3]
  unfold contextPercentage
  simp only [hp]
  rw [if_neg]
  omega

theorem contextPercentage_large (outOfRange : F64 → Int) (k : ℕ) (hk : 202000 ≤ k)
    (h63 : k < 2 ^ 63) : contextPercentage outOfRange (k : ℤ) = 100 := by
  have hk1 : (202000 : ℚ) ≤ (k : ℚ) := by exact_mod_cast hk
  have hk2 : (k : ℚ) ≤ 2 ^ 63 := by
    have : k ≤ 2 ^ 63 := le_of_lt h63
    exact_mod_cast this
  obtain ⟨r1, hr1, he1⟩ := round64_near (k : ℚ) (by linarith [show (1 : ℚ) / 2 ^ 20 ≤ 1 by norm_num])
    (le_trans hk2 (by norm_num))
  have hb1 := abs_le.mp he1
  have hkd : (k : ℚ) / 2 ^ 53 ≤ 1024 := by
    rw [div_le_iff₀ (by norm_num)]
    have : (2 : ℚ) ^ 63 = 1024 * 2 ^ 53 := by norm_num
    linarith
  have hr1lo : (201000 : ℚ) ≤ r1 := by
    have : (k : ℚ) / 2 ^ 53 ≤ (k : ℚ) / 2 ^ 10 := by
      apply div_le_div_of_nonneg_left (by linarith) (by norm_num) (by norm_num)
    have h10 : (k : ℚ) / 2 ^ 10 = (k : ℚ) * (1 / 1024) := by ring
    linarith [hb1.1]
  have hr1hi : r1 ≤ 2 ^ 63 + 1024 := by linarith [hb1.2]
  obtain ⟨r2, hr2, he2⟩ := round64_near (r1 * 100) (by linarith [show (1 : ℚ) / 2 ^ 20 ≤ 1 by norm_num])
    (by
      have : (2 : ℚ) ^ 70 = 128 * 2 ^ 63 := by norm_num
      have h63' : (0 : ℚ) < 2 ^ 63 := by norm_num
      linarith)
  have hb2 := abs_le.mp he2
  have hd2 : r1 * 100 / 2 ^ 53 ≤ r1 * 100 * (1 / 1024) := by
    have : r1 * 100 / 2 ^ 53 ≤ r1 * 100 / 2 ^ 10 := by
      apply div_le_div_of_nonneg_left (by linarith) (by norm_num) (by norm_num)
    have h10 : r1 * 100 / 2 ^ 10 = r1 * 100 * (1 / 1024) := by ring
    linarith
  have hd2' : r1 * 100 / 2 ^ 53 ≤ 102500 := by
    rw [div_le_iff₀ (by norm_num)]
    have : (2 : ℚ) ^ 63 = 1024 * 2 ^ 53 := by norm_num
    have h53 : (0 : ℚ) < 2 ^ 53 := by norm_num
    nlinarith
  have hr2lo : (20000000 : ℚ) ≤ r2 := by linarith [hb2.1]
  have hr2hi : r2 ≤ 100 * 2 ^ 63 + 102400 + 102500 := by linarith [hb2.2]
  obtain ⟨r3, hr3, he3⟩ := round64_near (r2 / 200000)
    (by
      have : (100 : ℚ) ≤ r2 / 200000 := by
        rw [le_div_iff₀ (by norm_num)]; linarith
      linarith [show (1 : ℚ) / 2 ^ 20 ≤ 1 by norm_num])
    (by
      rw [div_le_iff₀ (by norm_num)]
      have : (2 : ℚ) ^ 70 = 128 * 2 ^ 63 := by norm_num
      have h63' : (0 : ℚ) < 2 ^ 63 := by norm_num
      linarith)
  have hb3 := abs_le.mp he3
  have hq3lo : (100 : ℚ) ≤ r2 / 200000 := by
    rw [le_div_iff₀ (by norm_num)]; linarith
  have hq3hi : r2 / 200000 ≤ 2 ^ 62 := by
    rw [div_le_iff₀ (by norm_num)]
    have : (2 : ℚ) ^ 63 = 2 * 2 ^ 62 := by norm_num
    have h62 : (1000000 : ℚ) ≤ 2 ^ 62 := by norm_num
    linarith
  have hd3 : r2 / 200000 / 2 ^ 53 ≤ r2 / 200000 * (1 / 1024) := by
    have : r2 / 200000 / 2 ^ 53 ≤ r2 / 200000 / 2 ^ 10 := by
      apply div_le_div_of_nonneg_left (by linarith) (by norm_num) (by norm_num)
    have h10 : r2 / 200000 / 2 ^ 10 = r2 / 200000 * (1 / 1024) := by ring
    linarith
  have hr3lo : (100 : ℚ) ≤ r3 := by
    have hq : (100 : ℚ) * (1 + 1 / 1000) ≤ r2 / 200000 := by
      rw [le_div_iff₀ (by norm_num)]; linarith
    have hd3'' : r2 / 200000 / 2 ^ 53 ≤ r2 / 200000 * (1 / 2 ^ 53) := by
      rw [div_eq_mul_one_div]
    have hsmall : (1 : ℚ) / 2 ^ 53 ≤ 1 / 2000 := by norm_num
    have hmul : r2 / 200000 * (1 / 2 ^ 53) ≤ r2 / 200000 * (1 / 2000) :=
      mul_le_mul_of_nonneg_left hsmall (by linarith)
    linarith [hb3.1]
  have hr3hi : r3 < 2 ^ 63 := by
    have h63' : (2 : ℚ) ^ 63 = 2 * 2 ^ 62 := by norm_num
    have h62 : (0 : ℚ) < 2 ^ 62 := by norm_num
    linarith [hb3.2]
  have hf100 : (100 : ℤ) ≤ ⌊r3⌋ := Int.le_floor.mpr (by exact_mod_cast hr3lo)
  have hf63 : ⌊r3⌋ < 9223372036854775808 := by
    rw [Int.floor_lt]
    have : ((9223372036854775808 : ℤ) : ℚ) = 2 ^ 63 := by norm_num
    rw [this]
    exact hr3hi
  have hp : F64.toInt outOfRange
      (F64.divConst 200000 (F64.mulConst 100 (F64.ofInt (k : ℤ)))) = ⌊r3⌋ := by
    unfold F64.ofInt
    rw [Int.cast_natCast, hr1]
    simp only [F64.mulConst, hr2, F64.divConst, hr3]
    exact F64.toInt_of_floor outOfRange r3 _ (by linarith) rfl hf63
  unfold contextPercentage
  simp only [hp]
  split <;> omega

theorem contextPercentage_eq (outOfRange : F64 → Int) (n : Int) (h0 : 0 ≤ n)
    (h63 : n < 9223372036854775808) :
    contextPercentage outOfRange n = budgetPercentage n := by
  obtain ⟨k, rfl⟩ := Int.eq_ofNat_of_zero_le h0
  unfold budgetPercentage
  rcases Nat.lt_or_ge k 202000 with hk | hk
  · rw [contextPercentage_small outOfRange k hk]
    omega
  · rw [contextPercentage_large outOfRange k hk (by omega)]
    omega


/-! ## The presentation of the context estimate -/

theorem countChar_append (c : Char) (s t : String) :
    countChar c (s ++ t) = countChar c s + countChar c t := by
  simp [countChar, String.data_append, List.count_append]

theorem countChar_repeatString (c : Char) (s : String) (n : Nat) :
    countChar c (repeatString s n) = n * countChar c s := by
  induction n with
  | zero => simp [repeatString, countChar]
  | succ k ih =>
    simp only [repeatString, countChar_append, ih]
    rw [Nat.succ_mul]; omega

theorem countChar_getContextColor (p : Int) :
    countChar '█' (getContextColor p) = 0 ∧ countChar '░' (getContextColor p) = 0 := by
  unfold getContextColor
  split
  · exact ⟨by decide, by decide⟩
  · split
    · exact ⟨by decide, by decide⟩
    · exact ⟨by decide, by decide⟩

theorem strRepeat_small (allocLimit : Nat) (s : String) (k : Int) (h0 : 0 ≤ k) (h10 : k ≤ 10)
    (hs : s.utf8ByteSize = 3) (halloc : 30 ≤ allocLimit) :
    ∃ str, strRepeat allocLimit s k = some str ∧
      ∀ c, countChar c str = k.toNat * countChar c s := by
  unfold strRepeat
  by_cases hk0 : k = 0
  · refine ⟨"", by simp [hk0], fun c => ?_⟩
    simp [hk0, countChar]
  · by_cases hk1 : k = 1
    · refine ⟨s, by simp [hk1], fun c => ?_⟩
      simp [hk1]
    · have hneg : ¬ k < 0 := by omega
      have hk : k.toNat ≤ 10 := by omega
      have hmax : ¬ s.utf8ByteSize * k.toNat > 9223372036854775807 := by
        rw [hs]; omega
      have hsize : ¬ s.utf8ByteSize * k.toNat > allocLimit := by
        rw [hs]; omega
      refine ⟨repeatString s k.toNat, by simp [hk0, hk1, hneg, hmax, hsize], fun c => ?_⟩
      exact countChar_repeatString c s k.toNat

theorem generateProgressBar_segments (allocLimit : Nat) (p : Int) (h0 : 0 ≤ p)
    (h100 : p ≤ 100) (halloc : 30 ≤ allocLimit) :
    ∃ bar, generateProgressBar allocLimit p = some bar ∧
      countChar '█' bar = (p / 10).toNat ∧ countChar '░' bar = 10 - (p / 10).toNat := by
  have hwrap : wrap64 (p * 10) = p * 10 := by unfold wrap64; omega
  have hdiv : Int.tdiv (p * 10) 100 = p / 10 := by
    rw [Int.tdiv_eq_ediv (by omega) (by omega)]; omega
  have hle : p / 10 ≤ 10 := by omega
  have hge : 0 ≤ p / 10 := by omega
  have hcap : ¬ p / 10 > 10 := by omega
  have hsub : sub64 10 (p / 10) = 10 - p / 10 := by unfold sub64 wrap64; omega
  obtain ⟨hc1, hc2⟩ := countChar_getContextColor p
  have hr1 : countChar '█' ColorReset = 0 := by decide
  have hr2 : countChar '░' ColorReset = 0 := by decide
  have hg1 : countChar '█' ColorGray = 0 := by decide
  have hg2 : countChar '░' ColorGray = 0 := by decide
  have hb1 : countChar '█' "█" = 1 := by decide
  have hb2 : countChar '░' "█" = 0 := by decide
  have hs1 : countChar '█' "░" = 0 := by decide
  have hs2 : countChar '░' "░" = 1 := by decide
  have he1 : countChar '█' "" = 0 := by decide
  have he2 : countChar '░' "" = 0 := by decide
  have hsz1 : "█".utf8ByteSize = 3 := by decide
  have hsz2 : "░".utf8ByteSize = 3 := by decide
  obtain ⟨fs, hfs, hfc⟩ := strRepeat_small allocLimit "█" (p / 10) hge hle hsz1 halloc
  obtain ⟨es, hes, hec⟩ := strRepeat_small allocLimit "░" (10 - p / 10) (by omega) (by omega) hsz2 halloc
  simp only [generateProgressBar, hwrap, hdiv, hcap, if_false, hsub, hfs, hes]
  by_cases hf : p / 10 > 0 <;> by_cases hemp : 10 - p / 10 > 0 <;>
    simp only [hf, hemp, if_true, if_false] <;>
    refine ⟨_, rfl, ?_, ?_⟩ <;>
    simp only [countChar_append, hfc, hec, hc1, hc2, hr1, hr2, hg1, hg2, hb1, hb2, hs1, hs2,
      he1, he2] <;>
    omega

theorem analyzeContext_returns (outOfRange : F64 → Int) (allocLimit : Nat)
    (transcriptPath : String) (file : Option (List Line))
    (h0 : 0 ≤ (if transcriptPath = "" then 0 else calculateContextUsage outOfRange file))
    (h63 : (if transcriptPath = "" then 0 else calculateContextUsage outOfRange file)
      < 9223372036854775808)
    (halloc : 30 ≤ allocLimit) :
    ∃ contextInfo,
      analyzeContext outOfRange allocLimit transcriptPath file = some contextInfo := by
  have hp := contextPercentage_eq outOfRange _ h0 h63
  obtain ⟨bar, hbar, -, -⟩ := generateProgressBar_segments allocLimit
    (budgetPercentage (if transcriptPath = "" then 0 else calculateContextUsage outOfRange file))
    (by unfold budgetPercentage; omega) (by unfold budgetPercentage; omega) halloc
  refine ⟨" | " ++ bar ++ " " ++ getContextColor (budgetPercentage
    (if transcriptPath = "" then 0 else calculateContextUsage outOfRange file))
    ++ toString (budgetPercentage
      (if transcriptPath = "" then 0 else calculateContextUsage outOfRange file))
    ++ "% " ++ formatNumber
      (if transcriptPath = "" then 0 else calculateContextUsage outOfRange file)
    ++ ColorReset, ?_⟩
  unfold analyzeContext
  simp only [hp, hbar]

/-- C18: for every context length `n ≥ 0` that `analyzeContext` gets (0 for an
empty transcript path, the estimate of `calculateContextUsage` otherwise) the
percentage it computes in `float64` is `min(100, floor(n * 100 / 200000))`,
in 0..100; the bar `generateProgressBar` draws for it has exactly 10 segments,
`floor(percentage / 10)` filled and the rest empty; `analyzeContext` returns
that bar, the colour of `getContextColor`, the percentage and the formatted
number; `getContextColor` gives the first colour exactly when the percentage
is below 60, the second exactly from 60 to 79 and the third exactly from 80 on. -/
theorem analyzeContext_presentation (outOfRange : F64 → Int) (allocLimit : Nat)
    (transcriptPath : String) (file : Option (List Line)) (n : Int)
    (hn : n = if transcriptPath = "" then 0 else calculateContextUsage outOfRange file)
    (h0 : 0 ≤ n) (h63 : n < 9223372036854775808) (halloc : 30 ≤ allocLimit) :
    contextPercentage outOfRange n = budgetPercentage n ∧
      0 ≤ budgetPercentage n ∧ budgetPercentage n ≤ 100 ∧
      (∃ bar, generateProgressBar allocLimit (budgetPercentage n) = some bar ∧
        countChar '█' bar = (budgetPercentage n / 10).toNat ∧
        countChar '░' bar = 10 - (budgetPercentage n / 10).toNat ∧
        countChar '█' bar + countChar '░' bar = 10 ∧
        analyzeContext outOfRange allocLimit transcriptPath file
          = some (" | " ++ bar ++ " " ++ getContextColor (budgetPercentage n)
            ++ toString (budgetPercentage n) ++ "% " ++ formatNumber n ++ ColorReset)) ∧
      (∀ p : Int, getContextColor p = ColorCtxGreen ↔ p < 60) ∧
      (∀ p : Int, getContextColor p = ColorCtxGold ↔ 60 ≤ p ∧ p ≤ 79) ∧
      (∀ p : Int, getContextColor p = ColorCtxRed ↔ 80 ≤ p) := by
  have hp := contextPercentage_eq outOfRange n h0 h63
  have hb0 : 0 ≤ budgetPercentage n := by unfold budgetPercentage; omega
  have hb100 : budgetPercentage n ≤ 100 := by unfold budgetPercentage; omega
  obtain ⟨bar, hbar, hf, he⟩ :=
    generateProgressBar_segments allocLimit (budgetPercentage n) hb0 hb100 halloc
  have h12 : ColorCtxGreen ≠ ColorCtxGold := by decide
  have h13 : ColorCtxGreen ≠ ColorCtxRed := by decide
  have h23 : ColorCtxGold ≠ ColorCtxRed := by decide
  refine ⟨hp, hb0, hb100, ⟨bar, hbar, hf, he, ?_, ?_⟩, fun p => ?_, fun p => ?_, fun p => ?_⟩
  · rw [hf, he]
    have : budgetPercentage n / 10 ≤ 10 := by omega
    omega
  · unfold analyzeContext
    simp only [← hn, hp, hbar]
  · unfold getContextColor
    by_cases h1 : p < 60
    · simp [h1]
    · by_cases h2 : p < 80
      · simp [h1, h2, h12.symm]
      · simp [h1, h2, h13.symm]
  · unfold getContextColor
    by_cases h1 : p < 60
    · simp only [h1, if_true, h12, false_iff]; omega
    · by_cases h2 : p < 80
      · simp only [h1, h2, if_true, if_false, true_iff]; omega
      · simp only [h1, h2, if_false, h23.symm, false_iff]; omega
  · unfold getContextColor
    by_cases h1 : p < 60
    · simp only [h1, if_true, h13, false_iff]; omega
    · by_cases h2 : p < 80
      · simp only [h1, h2, if_true, if_false, h23, false_iff]; omega
      · simp only [h1, h2, if_false, true_iff]; omega

/-- C18, on a transcript whose estimate is 130000: 65 percent, six filled and
four empty segments, the second colour. -/
theorem analyzeContext_presentation_witness :
    (130000 = if "t" = "" then 0
        else calculateContextUsage minInt64OnOverflow (some [usageRecord false 130000])) ∧
      contextPercentage minInt64OnOverflow 130000 = 65 ∧
      generateProgressBar 1000 65
        = some "\\033[38;2;188;155;83m██████\\033[0m\\033[38;2;64;64;64m░░░░\\033[0m" ∧
      analyzeContext minInt64OnOverflow 1000 "t" (some [usageRecord false 130000])
        = some (" | \\033[38;2;188;155;83m██████\\033[0m\\033[38;2;64;64;64m░░░░\\033[0m"
          ++ " \\033[38;2;188;155;83m65% 130k\\033[0m") ∧
      getContextColor 65 = ColorCtxGold := by
  have hn : (130000 : Int) = if "t" = "" then 0
      else calculateContextUsage minInt64OnOverflow (some [usageRecord false 130000]) := by
    have h := scanBackward_usageRecord minInt64OnOverflow [] [] 130000 (by norm_num)
      (by norm_num) (by simp)
    have hne : ¬ "t" = "" := by decide
    rw [if_neg hne]
    exact h.symm
  have h := analyzeContext_presentation minInt64OnOverflow 1000 "t"
    (some [usageRecord false 130000]) 130000 hn (by decide) (by decide) (by decide)
  have hb : budgetPercentage 130000 = 65 := by decide
  obtain ⟨hp, -, -, ⟨bar, hbar, -, -, -, hac⟩, -, hgold, -⟩ := h
  rw [hb] at hp hbar hac
  have hbar2 : generateProgressBar 1000 65
      = some "\\033[38;2;188;155;83m██████\\033[0m\\033[38;2;64;64;64m░░░░\\033[0m" := by
    decide
  have hbeq := Option.some.inj (hbar.symm.trans hbar2)
  rw [hbeq] at hac
  exact ⟨hn, hp, hbar2, hac.trans (by decide), (hgold 65).mpr (by decide)⟩


/-! ## A token sum beyond `int64` -/

theorem generateProgressBar_aborts (allocLimit : Nat) (p : Int)
    (hlo : -900000000000000000 ≤ p) (hhi : p ≤ -10 * ((allocLimit : Int) + 1)) :
    generateProgressBar allocLimit p = none := by
  have hwrap : wrap64 (p * 10) = p * 10 := by unfold wrap64; omega
  have hdiv : Int.tdiv (p * 10) 100 = -((-(p * 10)) / 100) := by
    have h1 : Int.tdiv (-(-(p * 10))) 100 = -(Int.tdiv (-(p * 10)) 100) := Int.neg_tdiv _ _
    rw [neg_neg] at h1
    rw [h1, Int.tdiv_eq_ediv (by omega) (by omega)]
  have hfilled : -((-(p * 10)) / 100) ≤ -((allocLimit : Int) + 1) := by omega
  have hfilled2 : -90000000000000000 ≤ -((-(p * 10)) / 100) := by omega
  have hcap : ¬ -((-(p * 10)) / 100) > 10 := by omega
  have hsub : sub64 10 (-((-(p * 10)) / 100)) = 10 + (-(p * 10)) / 100 := by
    unfold sub64 wrap64; omega
  have hnf : ¬ -((-(p * 10)) / 100) > 0 := by omega
  have hemp : 10 + (-(p * 10)) / 100 > 0 := by omega
  have hsz : "░".utf8ByteSize = 3 := by decide
  have hrep : strRepeat allocLimit "░" (10 + (-(p * 10)) / 100) = none := by
    unfold strRepeat
    have h0 : ¬ 10 + (-(p * 10)) / 100 = 0 := by omega
    have h1 : ¬ 10 + (-(p * 10)) / 100 = 1 := by omega
    have h2 : ¬ 10 + (-(p * 10)) / 100 < 0 := by omega
    rw [if_neg h0, if_neg h1, if_neg h2, hsz]
    by_cases hmax : 3 * (10 + (-(p * 10)) / 100).toNat > 9223372036854775807
    · rw [if_pos hmax]
    · rw [if_neg hmax, if_pos (by omega)]
  simp only [generateProgressBar, hwrap, hdiv, hcap, if_false, hsub, hnf, hemp, if_true, hrep]

theorem contextPercentage_minInt64 (outOfRange : F64 → Int) :
    -4611686018427389 ≤ contextPercentage outOfRange (-9223372036854775808) ∧
      contextPercentage outOfRange (-9223372036854775808) ≤ -4611686018427387 := by
  have h1 : round64 ((1 : ℕ) * (2 : ℚ) ^ (63 : ℤ)) = .finite ((1 : ℕ) * (2 : ℚ) ^ (63 : ℤ)) :=
    round64_dyadic 1 63 (by norm_num) (by norm_num) (by norm_num) (by norm_num)
  have h1n := round64_neg _ _ (by norm_num) h1
  have hof : F64.ofInt (-9223372036854775808) = .finite (-((1 : ℕ) * (2 : ℚ) ^ (63 : ℤ))) := by
    unfold F64.ofInt
    rw [← h1n]
    norm_num
  have h2 : round64 ((25 : ℕ) * (2 : ℚ) ^ (65 : ℤ)) = .finite ((25 : ℕ) * (2 : ℚ) ^ (65 : ℤ)) :=
    round64_dyadic 25 65 (by norm_num) (by norm_num) (by norm_num) (by norm_num)
  have h2n := round64_neg _ _ (by norm_num) h2
  have hmul : F64.mulConst 100 (.finite (-((1 : ℕ) * (2 : ℚ) ^ (63 : ℤ))))
      = .finite (-((25 : ℕ) * (2 : ℚ) ^ (65 : ℤ))) := by
    unfold F64.mulConst
    rw [← h2n]
    norm_num
  obtain ⟨r, hr, herr⟩ := round64_near (2 ^ 59 / 125) (by norm_num) (by norm_num)
  have h3n := round64_neg _ _ (by norm_num) hr
  have hdivc : F64.divConst 200000 (.finite (-((25 : ℕ) * (2 : ℚ) ^ (65 : ℤ))))
      = .finite (-r) := by
    unfold F64.divConst
    rw [← h3n]
    norm_num
  have hb := abs_le.mp herr
  have hlo : (4611686018427387 : ℚ) ≤ r := by
    have : (2 : ℚ) ^ 59 / 125 - 2 ^ 59 / 125 / 2 ^ 53 ≥ 4611686018427387 := by norm_num
    linarith [hb.1]
  have hhi : r ≤ (4611686018427389 : ℚ) := by
    have : (2 : ℚ) ^ 59 / 125 + 2 ^ 59 / 125 / 2 ^ 53 ≤ 4611686018427389 := by norm_num
    linarith [hb.2]
  have hneg : ¬ (0 : ℚ) ≤ -r := by linarith
  have hc1 : (-4611686018427389 : Int) ≤ ⌈-r⌉ := by
    have : ((-4611686018427389 : Int) : ℚ) ≤ -r := by push_cast; linarith
    exact Int.cast_le.mp (le_trans this (Int.le_ceil _))
  have hc2 : ⌈-r⌉ ≤ (-4611686018427387 : Int) := by
    rw [Int.ceil_le]
    push_cast
    linarith
  have hto : F64.toInt outOfRange (.finite (-r)) = ⌈-r⌉ := by
    simp only [F64.toInt, hneg, if_false]
    rw [if_pos]
    constructor <;> omega
  unfold contextPercentage
  simp only [hof, hmul, hdivc, hto]
  have h100 : ¬ ⌈-r⌉ > 100 := by omega
  rw [if_neg h100]
  exact ⟨hc1, hc2⟩

theorem analyzeContext_of_aborts (outOfRange : F64 → Int) (allocLimit : Nat)
    (transcriptPath : String) (file : Option (List Line)) (n : Int)
    (hpath : ¬ transcriptPath = "") (hn : calculateContextUsage outOfRange file = n)
    (hbar : generateProgressBar allocLimit (contextPercentage outOfRange n) = none) :
    analyzeContext outOfRange allocLimit transcriptPath file = none := by
  unfold analyzeContext
  simp only [if_neg hpath, hn, hbar]

theorem calculateContextUsage_overflowing :
    calculateContextUsage minInt64OnOverflow
      (some [usageRecord false 10000000000000000000]) = -9223372036854775808 :=
  (calculateContextUsage_single minInt64OnOverflow 10000000000000000000 round64_overflowing
    (by norm_num)).trans
    (F64.toInt_of_large minInt64OnOverflow 10000000000000000000 (by norm_num))

theorem analyzeContext_overflowing :
    analyzeContext minInt64OnOverflow 281474976710656 "t"
      (some [usageRecord false 10000000000000000000]) = none :=
  analyzeContext_of_aborts minInt64OnOverflow 281474976710656 "t" _ (-9223372036854775808)
    (by decide) calculateContextUsage_overflowing
    (generateProgressBar_aborts 281474976710656 _
      (le_trans (by decide) (contextPercentage_minInt64 minInt64OnOverflow).1)
      (le_trans (contextPercentage_minInt64 minInt64OnOverflow).2 (by decide)))


/-! ## The collection of the results and the heartbeat of `main` -/

theorem collect_of_perm (a b c d : String) (arrivals : List Result)
    (h : arrivals.Perm [{ Tag := "git", Data := a }, { Tag := "hours", Data := b },
      { Tag := "context", Data := c }, { Tag := "message", Data := d }]) :
    collect arrivals
      = { gitBranch := a, totalHours := b, contextUsage := c, userMessage := d } := by
  unfold collect
  rw [← List.Perm.foldl_eq' h.symm]
  · simp [collectResult]
  · intro x hx y hy z
    simp only [List.mem_cons, List.mem_singleton, List.not_mem_nil, or_false] at hx hy
    rcases hx with rfl | rfl | rfl | rfl <;> rcases hy with rfl | rfl | rfl | rfl <;>
      simp [collectResult]

/-- C16: the collection loop of `main` gives the same four values whatever the
order in which the four tagged results (one of each kind) arrive: every
permutation of them fills the slot of each kind with that kind's result. -/
theorem collect_order_independent (a b c d : String) (arrivals arrivals2 : List Result)
    (h : arrivals.Perm [{ Tag := "git", Data := a }, { Tag := "hours", Data := b },
      { Tag := "context", Data := c }, { Tag := "message", Data := d }])
    (h2 : arrivals2.Perm arrivals) :
    collect arrivals
        = { gitBranch := a, totalHours := b, contextUsage := c, userMessage := d } ∧
      collect arrivals2 = collect arrivals := by
  have h1 := collect_of_perm a b c d arrivals h
  exact ⟨h1, by rw [h1]; exact collect_of_perm a b c d arrivals2 (h2.trans h)⟩

/-- C16, on two orders of arrival. -/
theorem collect_order_independent_witness :
    ([({ Tag := "message", Data := "m" } : Result), { Tag := "git", Data := "g" },
        { Tag := "context", Data := "c" }, { Tag := "hours", Data := "h" }].Perm
        [{ Tag := "git", Data := "g" }, { Tag := "hours", Data := "h" },
          { Tag := "context", Data := "c" }, { Tag := "message", Data := "m" }]) ∧
      ([({ Tag := "hours", Data := "h" } : Result), { Tag := "context", Data := "c" },
        { Tag := "message", Data := "m" }, { Tag := "git", Data := "g" }].Perm
        [{ Tag := "message", Data := "m" }, { Tag := "git", Data := "g" },
          { Tag := "context", Data := "c" }, { Tag := "hours", Data := "h" }]) ∧
      collect [{ Tag := "message", Data := "m" }, { Tag := "git", Data := "g" },
          { Tag := "context", Data := "c" }, { Tag := "hours", Data := "h" }]
        = { gitBranch := "g", totalHours := "h", contextUsage := "c", userMessage := "m" } ∧
      collect [{ Tag := "hours", Data := "h" }, { Tag := "context", Data := "c" },
          { Tag := "message", Data := "m" }, { Tag := "git", Data := "g" }]
        = collect [{ Tag := "message", Data := "m" }, { Tag := "git", Data := "g" },
          { Tag := "context", Data := "c" }, { Tag := "hours", Data := "h" }] :=
  ⟨by decide, by decide,
    collect_order_independent "g" "h" "c" "m" _ _ (by decide) (by decide)⟩

theorem lookup_cons_if (entries : List (String × FileData)) (other k : String) (v : FileData) :
    ((k, v) :: entries).lookup other = if other = k then some v else entries.lookup other := by
  rw [List.lookup_cons]
  by_cases h : other = k
  · simp [h]
  · have hb : (other == k) = false := by simpa using h
    simp [h, hb]

theorem lookup_putEntry_same (name : String) (data : FileData)
    (entries : List (String × FileData)) :
    (putEntry name data entries).lookup name = some data := by
  induction entries with
  | nil => simp [putEntry, lookup_cons_if]
  | cons e rest ih =>
    obtain ⟨k, v⟩ := e
    by_cases hk : k = name
    · simp [putEntry, hk, lookup_cons_if]
    · by_cases hlt : name < k
      · simp [putEntry, hk, hlt, lookup_cons_if]
      · have hne : ¬ name = k := fun h => hk h.symm
        simp only [putEntry, hk, hlt, if_false, lookup_cons_if, hne]
        exact ih

theorem lookup_putEntry_other (name other : String) (data : FileData)
    (entries : List (String × FileData)) (h : other ≠ name) :
    (putEntry name data entries).lookup other = entries.lookup other := by
  induction entries with
  | nil => simp [putEntry, lookup_cons_if, h]
  | cons e rest ih =>
    obtain ⟨k, v⟩ := e
    by_cases hk : k = name
    · subst hk
      simp only [putEntry, if_true, lookup_cons_if, h, if_false]
    · by_cases hlt : name < k
      · simp only [putEntry, hk, hlt, if_true, if_false, lookup_cons_if, h]
      · simp only [putEntry, hk, hlt, if_false, lookup_cons_if]
        rw [ih]

theorem readSessionFile_afterMkdir (mkdir : MkdirResult) (store : Store) (name : String) :
    readSessionFile (afterMkdir mkdir store) name = readSessionFile store name := by
  cases mkdir <;> cases store <;> rfl

theorem readSessionFile_updateSessionFile_other (world : World) (sessionID : String)
    (store : Store) (name : String)
    (h : ∀ homeDir, world.homeDir = some homeDir →
      sessionEntry homeDir sessionID ≠ some name) :
    readSessionFile (updateSessionFile world sessionID store) name
      = readSessionFile store name := by
  unfold updateSessionFile
  cases hhome : world.homeDir with
  | none => rfl
  | some homeDir =>
    have hne := h homeDir hhome
    by_cases hmk : world.mkdir = .failed
    · simp only [hmk, if_true]
    · simp only [hmk, if_false]
      rw [← readSessionFile_afterMkdir world.mkdir store name]
      cases hentry : sessionEntry homeDir sessionID with
      | none => rfl
      | some target =>
        have hnt : name ≠ target := fun heq => hne (by rw [hentry, heq])
        cases hdir : afterMkdir world.mkdir store with
        | none => rfl
        | some entries =>
          cases hw : world.write with
          | stored => simp only [readSessionFile, lookup_putEntry_other _ _ _ _ hnt]
          | refused => rfl
          | damaged left => simp only [readSessionFile, lookup_putEntry_other _ _ _ _ hnt]

theorem readSessionFile_updateSessionFile_same (world : World) (sessionID : String)
    (store : Store) (homeDir name : String) (entries : List (String × FileData))
    (hhome : world.homeDir = some homeDir) (hmk : world.mkdir ≠ .failed)
    (hentry : sessionEntry homeDir sessionID = some name)
    (hdir : afterMkdir world.mkdir store = some entries) :
    readSessionFile (updateSessionFile world sessionID store) name
      = match world.write with
        | .stored => .valid (updateSession sessionID world.heartbeatTick.today
            world.heartbeatTick.unix (readSessionFile store name))
        | .refused => readSessionFile store name
        | .damaged left => left := by
  have hread : (entries.lookup name).getD .unreadable = readSessionFile store name := by
    rw [← readSessionFile_afterMkdir world.mkdir store name, hdir]
    rfl
  unfold updateSessionFile
  simp only [hhome, hmk, if_false, hentry, hdir]
  cases hw : world.write with
  | stored => simp only [readSessionFile, lookup_putEntry_same, Option.getD_some, hread]
  | refused => simp only [readSessionFile, hread]
  | damaged left => simp only [readSessionFile, lookup_putEntry_same, Option.getD_some]

theorem splitPath_of_no_slash (cs : List Char) (h : '/' ∉ cs) : splitPath cs = [cs] := by
  induction cs with
  | nil => rfl
  | cons c rest ih =>
    simp only [List.mem_cons, not_or] at h
    have hc : ¬ c = '/' := fun heq => h.1 heq.symm
    simp only [splitPath, hc, if_false, ih h.2]

theorem sessionEntry_plain (homeDir sessionID : String) (h : '/' ∉ sessionID.data) :
    sessionEntry homeDir sessionID = some (sessionID ++ ".json") := by
  have hmem : '/' ∉ (sessionID ++ ".json").data := by
    rw [String.data_append, List.mem_append, not_or]
    exact ⟨h, by decide⟩
  have hlen : (sessionID ++ ".json").length = sessionID.length + 5 := by
    rw [String.length_append]; rfl
  have h0 : sessionID ++ ".json" ≠ "" := by
    intro heq
    have := congrArg String.length heq
    rw [hlen] at this
    have h00 : "".length = 0 := rfl
    omega
  have h1 : sessionID ++ ".json" ≠ "." := by
    intro heq
    have := congrArg String.length heq
    rw [hlen] at this
    have h11 : ".".length = 1 := rfl
    omega
  have h2 : sessionID ++ ".json" ≠ ".." := by
    intro heq
    have := congrArg String.length heq
    rw [hlen] at this
    have h22 : "..".length = 2 := rfl
    omega
  have hel : pathElements (sessionID ++ ".json") = [sessionID ++ ".json"] := by
    unfold pathElements
    rw [splitPath_of_no_slash _ hmem]
    rfl
  unfold sessionEntry sessionFile
  rw [hel]
  simp [cleanElement, h0, h1, h2]

theorem sentResults_of_none (input : Input) (world : World) (store : Store)
    (h : analyzeContext world.outOfRange world.allocLimit input.TranscriptPath
      world.transcript = none) :
    sentResults input world store = none := by
  unfold sentResults
  rw [h]

theorem sentResults_of_some (input : Input) (world : World) (store : Store)
    (contextInfo : String)
    (h : analyzeContext world.outOfRange world.allocLimit input.TranscriptPath
      world.transcript = some contextInfo) :
    sentResults input world store
      = some [{ Tag := "git",
                Data := (getGitBranch { gitBranchCache := "", gitBranchExpires := 0 }
                  world.gitNow world.gitStoreNow world.git).result },
              { Tag := "hours",
                Data := calculateTotalHours world.hoursTick.today world.hoursTick.unix
                  (if world.homeDir.isSome then store else none) },
              { Tag := "context", Data := contextInfo },
              { Tag := "message", Data := world.userMessage }] := by
  unfold sentResults
  rw [h]

theorem main_of_sentResults_none (input : Input) (world : World) (store : Store)
    (h : sentResults input world store = none) :
    main input world store = none := by
  unfold main
  rw [h]

theorem main_of_sentResults (input : Input) (world : World) (store : Store)
    (results : List Result) (h : sentResults input world store = some results) :
    main input world store
      = some { printed := collect (world.arrival results),
               store := updateSessionFile world input.SessionID store } := by
  unfold main
  rw [h]

theorem main_none_iff (input : Input) (world : World) (store : Store) :
    main input world store = none ↔
      analyzeContext world.outOfRange world.allocLimit input.TranscriptPath
        world.transcript = none := by
  cases hac : analyzeContext world.outOfRange world.allocLimit input.TranscriptPath
    world.transcript with
  | none =>
    rw [main_of_sentResults_none input world store (sentResults_of_none input world store hac)]
    exact ⟨fun _ => rfl, fun _ => rfl⟩
  | some contextInfo =>
    rw [main_of_sentResults input world store _
      (sentResults_of_some input world store contextInfo hac)]
    exact ⟨fun h => Option.noConfusion h, fun h => Option.noConfusion h⟩

/-- C17: in one invocation of `main`, whatever the order in which the results
arrive: the invocation runs to its end exactly when `analyzeContext` returns,
which it does whenever the context length is between 0 and `2^63` and a string
of 30 bytes can be allocated; when it runs to its end, the elapsed-time string
that is printed is `calculateTotalHours` on the sessions directory as it is
before the heartbeat of this invocation, and the directory after the
invocation is the directory before it with the one `updateSession` of the
input session id applied.  That `updateSession` leaves every entry other than
the session file reading as before; the session file, when it is an entry of
a directory that can be listed, holds the record that `updateSession`
computes from what it held where `os.WriteFile` stores it, reads as before
where `os.WriteFile` is refused, and reads as what a failed write leaves
otherwise; and the session file of an id without `/` is the entry `id.json`. -/
theorem main_heartbeat_after_reads (input : Input) (world : World) (store : Store)
    (hperm : ∀ l, (world.arrival l).Perm l) :
    (main input world store = none ↔
        analyzeContext world.outOfRange world.allocLimit input.TranscriptPath
          world.transcript = none) ∧
      (30 ≤ world.allocLimit →
        0 ≤ (if input.TranscriptPath = "" then 0
          else calculateContextUsage world.outOfRange world.transcript) →
        (if input.TranscriptPath = "" then 0
          else calculateContextUsage world.outOfRange world.transcript)
            < 9223372036854775808 →
        ∃ outcome, main input world store = some outcome) ∧
      (∀ outcome, main input world store = some outcome →
        outcome.printed.totalHours
            = calculateTotalHours world.hoursTick.today world.hoursTick.unix
              (if world.homeDir.isSome then store else none) ∧
          outcome.store = updateSessionFile world input.SessionID store) ∧
      (∀ name, (∀ homeDir, world.homeDir = some homeDir →
          sessionEntry homeDir input.SessionID ≠ some name) →
        readSessionFile (updateSessionFile world input.SessionID store) name
          = readSessionFile store name) ∧
      (∀ homeDir name entries, world.homeDir = some homeDir → world.mkdir ≠ .failed →
        sessionEntry homeDir input.SessionID = some name →
        afterMkdir world.mkdir store = some entries →
        readSessionFile (updateSessionFile world input.SessionID store) name
          = match world.write with
            | .stored => .valid (updateSession input.SessionID world.heartbeatTick.today
                world.heartbeatTick.unix (readSessionFile store name))
            | .refused => readSessionFile store name
            | .damaged left => left) ∧
      (∀ homeDir, '/' ∉ input.SessionID.data →
        sessionEntry homeDir input.SessionID = some (input.SessionID ++ ".json")) := by
  have hnone := main_none_iff input world store
  refine ⟨hnone, ?_, ?_, ?_, ?_, ?_⟩
  · intro halloc h0 h63
    obtain ⟨contextInfo, hac⟩ := analyzeContext_returns world.outOfRange world.allocLimit
      input.TranscriptPath world.transcript h0 h63 halloc
    exact ⟨_, main_of_sentResults input world store _
      (sentResults_of_some input world store contextInfo hac)⟩
  · intro outcome hout
    cases hac : analyzeContext world.outOfRange world.allocLimit input.TranscriptPath
      world.transcript with
    | none =>
      rw [hnone.mpr hac] at hout
      exact Option.noConfusion hout
    | some contextInfo =>
      have hsent := sentResults_of_some input world store contextInfo hac
      rw [main_of_sentResults input world store _ hsent] at hout
      rw [collect_of_perm _ _ _ _ _ (hperm _)] at hout
      rw [← Option.some.inj hout]
      exact ⟨rfl, rfl⟩
  · intro name h
    exact readSessionFile_updateSessionFile_other world input.SessionID store name h
  · intro homeDir name entries hhome hmk hentry hdir
    exact readSessionFile_updateSessionFile_same world input.SessionID store homeDir name
      entries hhome hmk hentry hdir
  · intro homeDir h
    exact sessionEntry_plain homeDir input.SessionID h

/-- C17, on a directory holding one session of 300 seconds and an invocation
400 seconds after its start: "5m" is printed, from the directory before the
heartbeat, where the directory after it holds 400 seconds and gives "6m"; on a
transcript with a token sum of `1e19` on amd64, the invocation does not run to
its end; the id `./s1` names the entry `s1.json`, the id `../escape` names no
entry and leaves the directory as it is, as does a write that is refused; and
in a directory that `os.MkdirAll` creates the record is the only entry. -/
theorem main_heartbeat_after_reads_witness :
    (∀ l : List Result, (exampleWorld.arrival l).Perm l) ∧
      (∃ outcome,
        main { SessionID := "s1", TranscriptPath := "" } exampleWorld exampleStore
            = some outcome ∧
          outcome.printed.totalHours = "5m" ∧
          sessionEntry "/home/u" "s1" = some "s1.json" ∧
          readSessionFile outcome.store "s1.json"
            = .valid ⟨"s1", "2024-01-01", 0, 400, 400, [⟨0, some 400⟩]⟩ ∧
          calculateTotalHours "2024-01-01" 400 outcome.store = "6m") ∧
      main { SessionID := "s1", TranscriptPath := "t" } overflowWorld exampleStore = none ∧
      sessionEntry "/home/u" "./s1" = some "s1.json" ∧
      updateSessionFile exampleWorld "./s1" exampleStore
        = some [("s1.json", .valid ⟨"s1", "2024-01-01", 0, 400, 400, [⟨0, some 400⟩]⟩)] ∧
      sessionEntry "/home/u" "../escape" = none ∧
      updateSessionFile exampleWorld "../escape" exampleStore = exampleStore ∧
      updateSessionFile { exampleWorld with write := .refused } "s1" exampleStore
        = exampleStore ∧
      updateSessionFile { exampleWorld with mkdir := .created } "s2" none
        = some [("s2.json",
            .valid ⟨"s2", "2024-01-01", 400, 400, 0, [⟨400, some 400⟩]⟩)] := by
  have hperm : ∀ l : List Result, (exampleWorld.arrival l).Perm l :=
    fun l => List.reverse_perm l
  have h := main_heartbeat_after_reads { SessionID := "s1", TranscriptPath := "" }
    exampleWorld exampleStore hperm
  obtain ⟨-, hreturns, hprinted, -, hsame, hplain⟩ := h
  obtain ⟨outcome, hout⟩ := hreturns (by decide) (by decide) (by decide)
  obtain ⟨hhours, hstore⟩ := hprinted outcome hout
  have hentry := hplain "/home/u" (by decide)
  have hfile := hsame "/home/u" "s1.json" _ rfl (by decide) hentry rfl
  have habort := (main_heartbeat_after_reads { SessionID := "s1", TranscriptPath := "t" }
    overflowWorld exampleStore (fun l => List.reverse_perm l)).1.mpr analyzeContext_overflowing
  refine ⟨hperm, ⟨outcome, hout, hhours.trans (by decide), hentry, ?_, ?_⟩, habort,
    by decide, by decide, by decide, by decide, by decide, by decide⟩
  · rw [hstore]
    exact hfile.trans (by decide)
  · rw [hstore]
    decide


/-! ## Implicit behaviour of `updateSession` -/

/-- C19: in every record that `updateSession` writes starting from an absent
session file, after the first heartbeat and after any number of further ones,
every interval has a present `End`: the interval with an absent `End` that
initialisation creates is closed with `End = now` in the same call. -/
theorem fromAbsent_all_closed (sid : String) (tick : Tick) (ticks : List Tick) :
    (fromAbsent sid tick ticks).Intervals.all (fun iv => iv.End.isSome) = true ∧
      (loadSession sid tick.today tick.unix .unreadable).Intervals
        = [{ Start := tick.unix, End := none }] ∧
      (updateSession sid tick.today tick.unix .unreadable).Intervals
        = [{ Start := tick.unix, End := some tick.unix }] := by
  refine ⟨?_, rfl, by rw [updateSession_unreadable]⟩
  rw [List.all_eq_true]
  exact closed_fromAbsent sid tick ticks

theorem updateSession_zeroSession (sid d : String) (t : Int) (h600 : 600 ≤ t)
    (ht : isInt64 t) :
    updateSession sid d t (.malformed zeroSession)
      = { ID := "", Date := "", Start := 0, LastHeartbeat := t, TotalSeconds := 0,
          Intervals := [{ Start := t, End := some t }] } := by
  have hgap : ¬ sub64 t 0 < 600 := by
    unfold isInt64 at ht
    unfold sub64 wrap64
    omega
  simp only [updateSession, loadSession, zeroSession, hgap, if_false, List.nil_append,
    sumIntervals, List.foldl_cons, List.foldl_nil, addInterval, sub64_self, add64]
  congr 1

/-- C20: when the session file is read but does not decode, leaving the zero
value in the record, `updateSession` at a time `now ≥ 600` does not initialise
a session: it writes the record with empty `ID`, empty `Date`, `Start` 0,
`LastHeartbeat = now`, the one interval from `now` to `now` and
`TotalSeconds` 0; after this and after any later heartbeats the record is
skipped by the date test of the loop of `calculateTotalHours`, today's date
never being the empty string. -/
theorem updateSession_undecodable (sid d : String) (t : Int) (h600 : 600 ≤ t)
    (ht : isInt64 t) :
    updateSession sid d t (.malformed zeroSession)
        = { ID := "", Date := "", Start := 0, LastHeartbeat := t, TotalSeconds := 0,
            Intervals := [{ Start := t, End := some t }] } ∧
      ∀ (ticks : List Tick) (today : String) (now : Int) (acc : Int × Nat) (name : String),
        today ≠ "" →
        scanEntry today now acc
          (name, .valid (updateSessions sid (updateSession sid d t (.malformed zeroSession)) ticks))
          = acc := by
  have h := updateSession_zeroSession sid d t h600 ht
  refine ⟨h, fun ticks today now acc name htoday => ?_⟩
  have hdate := (frame_updateSessions sid ticks
    (updateSession sid d t (.malformed zeroSession))).2.1
  rw [h] at hdate
  have hne : ¬ (updateSessions sid (updateSession sid d t (.malformed zeroSession)) ticks).Date
      = today := by
    rw [h, hdate]
    exact fun he => htoday he.symm
  simp only [scanEntry]
  split
  · rfl
  · simp only [hne, if_false]

/-- C20, on an undecodable file met at 1000 and a heartbeat at 1300: the record
has no id and no date and adds nothing to the total of 2024-01-01. -/
theorem updateSession_undecodable_witness :
    (600 : Int) ≤ 1000 ∧ isInt64 1000 ∧
      updateSession "s1" "2024-01-01" 1000 (.malformed zeroSession)
        = { ID := "", Date := "", Start := 0, LastHeartbeat := 1000, TotalSeconds := 0,
            Intervals := [{ Start := 1000, End := some 1000 }] } ∧
      "2024-01-01" ≠ "" ∧
      scanEntry "2024-01-01" 1300 (0, 0)
        ("s1.json", .valid (updateSessions "s1"
          (updateSession "s1" "2024-01-01" 1000 (.malformed zeroSession))
          [{ today := "2024-01-01", unix := 1300 }])) = (0, 0) :=
  ⟨by decide, by decide,
    (updateSession_undecodable "s1" "2024-01-01" 1000 (by decide) (by decide)).1, by decide,
    (updateSession_undecodable "s1" "2024-01-01" 1000 (by decide) (by decide)).2
      [{ today := "2024-01-01", unix := 1300 }] "2024-01-01" 1300 (0, 0) "s1.json" (by decide)⟩

end Statusline

